import Mathlib

/-!
Shallow embedding of the motion-control core of a serial-manipulator
library: the interior-point quadratic-program solver of QPSolver.cpp and
the resolved-rate control layer of SerialKinematicControl.cpp.

Machine float arithmetic is idealised as an arbitrary linear ordered
field, instantiated at the rationals for decidable evaluation and at the
reals where the square root is needed.  Eigen vectors and matrices are
lists resp. lists of rows, so that the library's run-time dimension
checks are expressible and a mismatched shape is a first-class input.
-/

namespace SRL

variable {α : Type} [LinearOrderedField α]

/-- A dynamically sized vector, as Eigen VectorXf. -/
abbrev Vec (α : Type) := List α

/-- A dynamically sized matrix stored by rows, as Eigen MatrixXf. -/
abbrev Mat (α : Type) := List (List α)

/-- Dot product of two vectors; on mismatched lengths the surplus entries
are ignored (in C++ such an operation is an out-of-bounds access). -/
def dot (a b : Vec α) : α := (List.zipWith (· * ·) a b).sum

/-- Componentwise sum of two vectors. -/
def vadd (a b : Vec α) : Vec α := List.zipWith (· + ·) a b

/-- Componentwise difference of two vectors. -/
def vsub (a b : Vec α) : Vec α := List.zipWith (· - ·) a b

/-- A scalar multiple of a vector. -/
def smul (s : α) (v : Vec α) : Vec α := v.map (fun t => s * t)

/-- Componentwise negation of a vector. -/
def vneg (v : Vec α) : Vec α := v.map (fun t => -t)

/-- The zero vector of a given size. -/
def zeroVec (n : ℕ) : Vec α := List.replicate n 0

/-- Number of rows of a matrix. -/
def nrows (M : Mat α) : ℕ := M.length

/-- Number of columns of a matrix (the length of its first row; the
matrices built by the library are rectangular). -/
def ncols (M : Mat α) : ℕ := (M.headD []).length

/-- The entry of a matrix at a row and column, with 0 outside. -/
def entry (M : Mat α) (i j : ℕ) : α := (M.getD i []).getD j 0

/-- One column of a matrix as a vector. -/
def colL (M : Mat α) (j : ℕ) : Vec α := M.map (fun r => r.getD j 0)

/-- The transpose of a (rectangular) matrix. -/
def transposeM (M : Mat α) : Mat α := (List.range (ncols M)).map (colL M)

/-- Matrix times vector. -/
def matVec (M : Mat α) (v : Vec α) : Vec α := M.map (fun r => dot r v)

/-- Matrix product. -/
def matMul (A B : Mat α) : Mat α :=
  A.map (fun r => (List.range (ncols B)).map (fun j => dot r (colL B j)))

/-- Componentwise sum of two matrices. -/
def matAdd (A B : Mat α) : Mat α := List.zipWith vadd A B

/-- A scalar multiple of a matrix. -/
def smulM (s : α) (M : Mat α) : Mat α := M.map (smul s)

/-- Outer product of two vectors. -/
def outer (a b : Vec α) : Mat α := a.map (fun ai => smul ai b)

/-- Trace of a square matrix. -/
def traceM (M : Mat α) : α := ((List.range M.length).map (fun i => entry M i i)).sum

/-- The identity matrix of a given size. -/
def idMat (n : ℕ) : Mat α :=
  (List.range n).map (fun i => (List.range n).map (fun j => if i = j then (1 : α) else 0))

/-- Determinant of a square matrix by Laplace expansion along the first
row. -/
def detL : Mat α → α
  | [] => 1
  | r :: rs =>
    ((List.range r.length).map
      (fun j => (-1 : α) ^ j * r.getD j 0 * detL (rs.map (fun row => row.eraseIdx j)))).sum
termination_by M => M.length
decreasing_by simp

/-- The matrix with one column replaced by a vector. -/
def setCol (M : Mat α) (j : ℕ) (b : Vec α) : Mat α :=
  (M.zip b).map (fun p => p.1.set j p.2)

/-- Direct dense solve of a square linear system, as Eigen's pivoted LU
solve in the source.  On an invertible matrix the LU solve returns the
unique solution, which Cramer's rule below reproduces exactly; on a
singular matrix Eigen returns unspecified values, modelled here by the
zeros that division by the vanishing determinant produces. -/
def luSolve (A : Mat α) (b : Vec α) : Vec α :=
  (List.range b.length).map (fun i => detL (setCol A i b) / detL A)

/-- Modelled from the spec: the solver's tuning members are declared in
QPSolver.h, which is not among the sources.  Section 4.1 of the spec
names the barrier weight u0, its decay rate beta0, the initial step
scalar alpha0, the fixed shrink factors, the iteration cap and the
tolerance; they are carried here as explicit configuration. -/
structure QPParams (α : Type) where
  steps : ℕ
  u0 : α
  beta0 : α
  alpha0 : α
  alphaMod : α
  uMod : α
  betaMod : α
  tol : α

/-- The persistent state of the interior-point loop: the current iterate,
the previous iterate, the barrier weight and its decay rate. -/
structure IPState (α : Type) where
  x : Vec α
  xPrev : Vec α
  u : α
  beta : α

/-- The accumulator of the per-constraint loop of QPSolver::solve
(lines 102 to 115): the clamped slacks in order, the violation flag, the
barrier weight (bumped by uMod once per violated constraint, before the
same constraint's gradient and Hessian terms are added), the running
gradient and the running Hessian. -/
structure Accum (α : Type) where
  d : List α
  viol : Bool
  u : α
  g : Vec α
  hess : Mat α

/-- One pass of the constraint loop body for a row of B paired with its
entry of c, translated statement by statement from the source. -/
def accumStep (uMod : α) (x : Vec α) (acc : Accum α) (bc : Vec α × α) : Accum α :=
  let dj := dot bc.1 x - bc.2
  let dj2 := if dj < 0 then (1 : α) / 100 else dj
  let u2 := if dj < 0 then acc.u * uMod else acc.u
  { d := acc.d ++ [dj2]
    viol := acc.viol || decide (dj < 0)
    u := u2
    g := vsub acc.g (smul (u2 / dj2) bc.1)
    hess := matAdd acc.hess (smulM (u2 / (dj2 * dj2)) (outer bc.1 bc.1)) }

/-- The step-size shrink loop of line 131: while the constraint would be
violated, multiply alpha by alphaMod.  In C++ the float alpha underflows
to exactly 0 after finitely many multiplications and the loop then
exits; the fuel models that bound and yields 0 when exhausted. -/
def shrinkStep (aMod d s : α) : ℕ → α → α
  | 0, _ => 0
  | fuel + 1, a => if d + a * s < 0 then shrinkStep aMod d s fuel (a * aMod) else a

/-- An upper bound on the number of float multiplications by a factor
below one before underflow to zero. -/
def lsFuel : ℕ := 10000

/-- All quantities computed by one iteration of the interior-point loop
before the state update: clamped slacks, violation flag, barrier weight
after the violation bumps, base point (reverted to the previous iterate
on a violation), updated decay rate, gradient, Newton step and accepted
step size. -/
structure IterData (α : Type) where
  d : List α
  viol : Bool
  u1 : α
  x1 : Vec α
  beta1 : α
  g : Vec α
  dx : Vec α
  alpha : α

/-- The body of one iteration of the interior-point loop of
QPSolver::solve (lines 94 to 139), up to and including the step-size
search. -/
def iterData (p : QPParams α) (H : Mat α) (f : Vec α) (B : Mat α) (c : Vec α)
    (s : IPState α) : IterData α :=
  let n := s.x.length
  let a := (B.zip c).foldl (accumStep p.uMod s.x) ⟨[], false, s.u, zeroVec n, H⟩
  let x1 := if a.viol then s.xPrev else s.x
  let beta1 := if a.viol then s.beta + p.betaMod * (1 - s.beta) else s.beta
  let g := vsub (vadd a.g (matVec H x1)) f
  let dx := luSolve a.hess (vneg g)
  let alpha := (a.d.zip (B.map (fun bj => dot bj dx))).foldl
    (fun al ds => shrinkStep p.alphaMod ds.1 ds.2 lsFuel al) p.alpha0
  ⟨a.d, a.viol, a.u, x1, beta1, g, dx, alpha⟩

/-- The state update at the end of an iteration that did not break out:
step the iterate, remember the base point, decay the barrier weight. -/
def iterNext (p : QPParams α) (H : Mat α) (f : Vec α) (B : Mat α) (c : Vec α)
    (s : IPState α) : IPState α :=
  let it := iterData p H f B c s
  ⟨vadd it.x1 (smul it.alpha it.dx), it.x1, it.u1 * it.beta1, it.beta1⟩

/-- The early-exit test of line 134.  The source compares
alpha times the norm of dx against the tolerance; squaring both sides
keeps the comparison inside the field and agrees with the source
whenever alpha and the tolerance are nonnegative. -/
def ipBreak (p : QPParams α) (H : Mat α) (f : Vec α) (B : Mat α) (c : Vec α)
    (s : IPState α) : Prop :=
  (iterData p H f B c s).alpha ^ 2 *
      dot (iterData p H f B c s).dx (iterData p H f B c s).dx < p.tol ^ 2

instance (p : QPParams α) (H : Mat α) (f : Vec α) (B : Mat α) (c : Vec α)
    (s : IPState α) : Decidable (ipBreak p H f B c s) := by
  unfold ipBreak; infer_instance

/-- The interior-point loop of QPSolver::solve, run for at most the fixed
number of steps; on early exit the current (possibly reverted) base
point is returned, otherwise the iterate after the last update. -/
def ipLoop (p : QPParams α) (H : Mat α) (f : Vec α) (B : Mat α) (c : Vec α) :
    ℕ → IPState α → Vec α
  | 0, s => s.x
  | fuel + 1, s =>
    if ipBreak p H f B c s then (iterData p H f B c s).x1
    else ipLoop p H f B c fuel (iterNext p H f B c s)

namespace QPSolver

/-- The dimension test of the unconstrained overload of QPSolver::solve
(line 16): H must be n by n and f of size n, for n the size of x0. -/
def dimMismatch (H : Mat α) (f x0 : Vec α) : Bool :=
  decide (nrows H ≠ x0.length) || decide (ncols H ≠ x0.length) ||
    decide (f.length ≠ x0.length)

/-- The dimension test of the inequality-constrained overload of
QPSolver::solve (line 41): the unconstrained checks plus B having as
many rows as c has entries.  The column count of B is not inspected. -/
def dimMismatchIneq (H : Mat α) (f : Vec α) (B : Mat α) (c x0 : Vec α) : Bool :=
  dimMismatch H f x0 || decide (nrows B ≠ c.length)

/-- QPSolver::solve with inequality constraints (lines 33 to 144):
either the guard returns x0 untouched, or the interior-point loop runs
from the initial state x = xPrev = x0, u = u0, beta = beta0. -/
def solve (p : QPParams α) (H : Mat α) (f : Vec α) (B : Mat α) (c : Vec α)
    (x0 : Vec α) : Vec α :=
  if dimMismatchIneq H f B c x0 then x0
  else ipLoop p H f B c p.steps ⟨x0, x0, p.u0, p.beta0⟩

/-- Modelled from the spec: solve_linear_system is declared outside the
given sources; section 4.1 describes the unconstrained minimisation as
solving the linear system H x = f and returning x0 when H is singular. -/
def solve_linear_system (f : Vec α) (H : Mat α) (x0 : Vec α) : Vec α :=
  if detL H = 0 then x0 else luSolve H f

/-- The unconstrained overload of QPSolver::solve (lines 10 to 27). -/
def solveUnconstrained (H : Mat α) (f x0 : Vec α) : Vec α :=
  if dimMismatch H f x0 then x0 else solve_linear_system f H x0

/-- QPSolver::least_squares, unconstrained overload (lines 149 to 180):
normal equations handed to the unconstrained solve. -/
def least_squares (y : Vec α) (A W : Mat α) (x0 : Vec α) : Vec α :=
  let m := nrows A
  let n := ncols A
  if y.length ≠ m ∨ x0.length ≠ n then x0
  else if nrows W ≠ m ∨ ncols W ≠ m then x0
  else
    let AtW := matMul (transposeM A) W
    solveUnconstrained (matMul AtW A) (matVec AtW y) x0

/-- QPSolver::least_squares, box-constrained overload (lines 185 to
231): the box is rewritten as B x at least c with B the negative
identity stacked over the identity and c the negated upper bounds
followed by the lower bounds. -/
def least_squares_box (p : QPParams α) (y : Vec α) (A W : Mat α)
    (xMin xMax x0 : Vec α) : Vec α :=
  let m := nrows A
  let n := ncols A
  if y.length ≠ m ∨ x0.length ≠ n ∨ xMin.length ≠ n ∨ xMax.length ≠ n ∨
      x0.length ≠ n then x0
  else if nrows W ≠ m ∨ ncols W ≠ m then x0
  else
    let B := (idMat n).map vneg ++ idMat n
    let c := xMax.map (fun v => -v) ++ xMin
    let AtW := matMul (transposeM A) W
    solve p (matMul AtW A) (matVec AtW y) B c x0

/-- One row of the identity matrix. -/
def basisRow (n i : ℕ) : Vec α :=
  (List.range n).map (fun j => if j = i then (1 : α) else 0)

/-- QPSolver::least_squares, equality plus box constrained overload
(lines 298 to 370): the saddle-point system on the stacked unknown of
multipliers and state, box rows acting on the state block only, solved
by the constrained solve; the state block of the result is returned. -/
def least_squares_redundant (p : QPParams α) (xd : Vec α) (W : Mat α)
    (y : Vec α) (A : Mat α) (xMin xMax x0 : Vec α) : Vec α :=
  let m := nrows A
  let n := ncols A
  if xd.length ≠ n ∨ y.length ≠ m ∨ x0.length ≠ n then x0
  else if nrows W ≠ n ∨ ncols W ≠ n then x0
  else
    let Hm := ((List.range m).map (fun i => zeroVec m ++ A.getD i [])) ++
      ((List.range n).map (fun i => colL A i ++ W.getD i []))
    let fv := y ++ matVec W xd
    let B := ((List.range n).map (fun i => zeroVec m ++ vneg (basisRow n i))) ++
      ((List.range n).map (fun i => zeroVec m ++ basisRow n i))
    let cv := xMax.map (fun v => -v) ++ xMin
    let x0' := zeroVec m ++ x0
    (solve p Hm fv B cv x0').drop m

end QPSolver

/-- A quaternion with components in the field, as Eigen Quaternionf. -/
structure Quat (α : Type) where
  w : α
  x : α
  y : α
  z : α

/-- Hamilton product of two quaternions, as Eigen's quaternion product. -/
def qmul (a b : Quat α) : Quat α :=
  ⟨a.w * b.w - a.x * b.x - a.y * b.y - a.z * b.z,
   a.w * b.x + a.x * b.w + a.y * b.z - a.z * b.y,
   a.w * b.y - a.x * b.z + a.y * b.w + a.z * b.x,
   a.w * b.z + a.x * b.y - a.y * b.x + a.z * b.w⟩

/-- Quaternion conjugate. -/
def qconj (a : Quat α) : Quat α := ⟨a.w, -a.x, -a.y, -a.z⟩

/-- The coefficient dot product of two quaternions, as
Eigen Quaternion dot. -/
def qdotQ (a b : Quat α) : α := a.w * b.w + a.x * b.x + a.y * b.y + a.z * b.z

/-- The vector part of a quaternion. -/
def qvec (a : Quat α) : Vec α := [a.x, a.y, a.z]

/-- A rigid-body pose: a translation and a unit quaternion.  The source
passes an Eigen Isometry3f and converts its rotation block to a unit
quaternion before use; the pose is modelled here directly by the
translation and that quaternion. -/
structure PoseQ (α : Type) where
  tx : α
  ty : α
  tz : α
  rot : Quat α

/-- The per-cycle state read by SerialKinematicControl.  The joint
count, joint state, limits, control period and gains are members of the
control class; the kinematic snapshot accessors (Jacobian, inertia,
endpoint pose, Jacobian derivative with respect to a joint, the
pseudoinverse routine) and the joint-space command map move_joints live
in base classes and the model library outside the given sources, so per
the spec's section 6 interface contract they are carried as
state-supplied data.  The field dJ stands for the accessor the source
reaches through get with underscore partial underscore derivative. -/
structure CtrlState (α : Type) where
  n : ℕ
  q : Vec α
  qdot : Vec α
  pLim : List (α × α)
  vLim : Vec α
  aLim : Vec α
  dt : α
  k : α
  kp : α
  qp : QPParams α
  jac : Mat α
  inertia : Mat α
  pinv : Mat α → Mat α
  dJ : Mat α → ℕ → Mat α
  endpoint : PoseQ α
  moveJoints : Vec α → Vec α

namespace SerialKinematicControl

/-- The damped fallback used throughout the control layer: nine tenths
of the current joint velocity vector. -/
def damped (st : CtrlState α) : Vec α := smul (9 / 10) st.qdot

/-- SerialKinematicControl::get_pose_error (lines 63 to 81): the
translation difference followed by the vector part of the quaternion
error qe, taken as is when the quaternion dot product is nonpositive
and negated otherwise. -/
def get_pose_error (desired actual : PoseQ α) : Vec α :=
  let qe := qmul desired.rot (qconj actual.rot)
  [desired.tx - actual.tx, desired.ty - actual.ty, desired.tz - actual.tz] ++
    (if qdotQ desired.rot actual.rot ≤ 0 then qvec qe else vneg (qvec qe))

/-- SerialKinematicControl::get_speed_limit (lines 378 to 399), which
writes the instantaneous lower and upper speed bound of a joint through
its two reference parameters, returned here as a pair in that order. -/
def get_speed_limit (rsqrt : α → α) (st : CtrlState α) (i : ℕ) : α × α :=
  let p0 := (st.pLim.getD i (0, 0)).1
  let p1 := (st.pLim.getD i (0, 0)).2
  let qi := st.q.getD i 0
  let vi := st.vLim.getD i 0
  let ai := st.aLim.getD i 0
  let lower := max ((p0 - qi) / st.dt) (max (-vi) (-(2 * rsqrt (ai * (qi - p0)))))
  let upper := min ((p1 - qi) / st.dt) (min vi (2 * rsqrt (ai * (p1 - qi))))
  (lower, upper)

/-- The gradient of the Chan and Dubey penalty function computed inside
SerialKinematicControl::get_joint_penalty (lines 411 to 416). -/
def penaltyGrad (st : CtrlState α) (i : ℕ) : α :=
  let qi := st.q.getD i 0
  let p0 := (st.pLim.getD i (0, 0)).1
  let p1 := (st.pLim.getD i (0, 0)).2
  let lower := qi - p0
  let upper := p1 - qi
  let range := p1 - p0
  (range * range * (2 * qi - p1 - p0)) / (4 * upper * upper * lower * lower)

/-- SerialKinematicControl::get_joint_penalty (lines 403 to 423). -/
def get_joint_penalty (st : CtrlState α) (i : ℕ) : α :=
  let qi := st.q.getD i 0
  let p0 := (st.pLim.getD i (0, 0)).1
  let p1 := (st.pLim.getD i (0, 0)).2
  let lower := qi - p0
  let upper := p1 - qi
  let range := p1 - p0
  if penaltyGrad st i * st.qdot.getD i 0 > 0 then range * range / (4 * upper * lower)
  else 1

/-- SerialKinematicControl::singularity_avoidance (lines 428 to 466):
a nonpositive scalar yields the zero vector after a diagnostic; a
positive one yields the manipulability gradient, whose first entry the
source sets to zero before the loop over the remaining joints. -/
def singularity_avoidance (rsqrt : α → α) (st : CtrlState α) (scalar : α) : Vec α :=
  if scalar ≤ 0 then zeroVec st.n
  else
    let J := st.jac
    let invJ := st.pinv J
    let mu := rsqrt (detL (matMul J (transposeM J)))
    (List.range st.n).map
      (fun i => if i = 0 then 0 else scalar * mu * traceM (matMul (st.dJ J i) invJ))

/-- The inertia matrix with the joint penalty minus one added on the
diagonal (lines 155 to 156). -/
def penalisedInertia (st : CtrlState α) : Mat α :=
  (List.range st.n).map (fun i =>
    let row := st.inertia.getD i []
    row.set i (row.getD i 0 + get_joint_penalty st i - 1))

/-- SerialKinematicControl::move_at_speed with an explicit redundant
task (lines 95 to 199): a wrongly sized redundant task returns the
damped fallback; otherwise a box-constrained least-squares for at most
six joints, else the weighted redundant least-squares. -/
def move_at_speed (rsqrt : α → α) (st : CtrlState α) (vel redundant : Vec α) : Vec α :=
  if redundant.length ≠ st.n then damped st
  else
    let J := st.jac
    let lims := (List.range st.n).map (fun i => get_speed_limit rsqrt st i)
    let xMin := lims.map Prod.fst
    let xMax := lims.map Prod.snd
    if st.n ≤ 6 then
      QPSolver.least_squares_box st.qp vel J (idMat st.n) xMin xMax
        (smul (1 / 2) (vadd xMin xMax))
    else
      QPSolver.least_squares_redundant st.qp redundant (penalisedInertia st) vel J
        xMin xMax st.qdot

/-- SerialKinematicControl::move_at_speed without a redundant task
(lines 86 to 90). -/
def move_at_speed_default (rsqrt : α → α) (st : CtrlState α) (vel : Vec α) : Vec α :=
  if st.n ≤ 6 then move_at_speed rsqrt st vel (zeroVec st.n)
  else move_at_speed rsqrt st vel (singularity_avoidance rsqrt st (1 / 2))

/-- SerialKinematicControl::move_to_position (lines 253 to 280):
proportional feedback to the target, clamped per joint into the
instantaneous speed bounds, with the damped fallback on a size
mismatch. -/
def move_to_position (rsqrt : α → α) (st : CtrlState α) (pos : Vec α) : Vec α :=
  if pos.length ≠ st.n then damped st
  else
    (List.range st.n).map (fun i =>
      let c := st.k * (pos.getD i 0 - st.q.getD i 0)
      let lim := get_speed_limit rsqrt st i
      if c < lim.1 then lim.1 else if c > lim.2 then lim.2 else c)

/-- SerialKinematicControl::move_to_pose without a redundant task
(lines 285 to 288). -/
def move_to_pose_default (rsqrt : α → α) (st : CtrlState α) (pose : PoseQ α) : Vec α :=
  move_at_speed_default rsqrt st (smul st.k (get_pose_error pose st.endpoint))

/-- SerialKinematicControl::move_to_pose with a redundant task
(lines 293 to 308). -/
def move_to_pose (rsqrt : α → α) (st : CtrlState α) (pose : PoseQ α)
    (redundancy : Vec α) : Vec α :=
  if redundancy.length ≠ st.n then damped st
  else move_at_speed rsqrt st (smul st.k (get_pose_error pose st.endpoint)) redundancy

/-- SerialKinematicControl::track_cartesian_trajectory without a
redundant task (lines 313 to 317). -/
def track_cartesian_trajectory_default (rsqrt : α → α) (st : CtrlState α)
    (pose : PoseQ α) (vel : Vec α) : Vec α :=
  move_at_speed_default rsqrt st
    (vadd vel (smul st.k (get_pose_error pose st.endpoint)))

/-- SerialKinematicControl::track_cartesian_trajectory with a redundant
task (lines 322 to 338). -/
def track_cartesian_trajectory (rsqrt : α → α) (st : CtrlState α) (pose : PoseQ α)
    (vel redundant : Vec α) : Vec α :=
  if redundant.length ≠ st.n then damped st
  else
    move_at_speed rsqrt st
      (vadd vel (smul st.k (get_pose_error pose st.endpoint))) redundant

/-- SerialKinematicControl::track_joint_trajectory with position and
velocity references (lines 343 to 373): feedforward plus proportional
feedback, clamped per joint, with the damped fallback on any size
mismatch. -/
def track_joint_trajectory (rsqrt : α → α) (st : CtrlState α) (pos vel : Vec α) : Vec α :=
  if pos.length ≠ st.n ∨ vel.length ≠ st.n then damped st
  else
    (List.range st.n).map (fun i =>
      let c := vel.getD i 0 + st.k * (pos.getD i 0 - st.q.getD i 0)
      let lim := get_speed_limit rsqrt st i
      if c < lim.1 then lim.1 else if c > lim.2 then lim.2 else c)

/-- SerialKinematicControl::track_joint_trajectory with an acceleration
feedforward argument (lines 516 to 531): any size mismatch returns the
zero vector, otherwise the acceleration argument is dropped and the
joint-space command map is applied to feedforward plus feedback. -/
def track_joint_trajectory_acc (st : CtrlState α) (pos vel acc : Vec α) : Vec α :=
  if pos.length ≠ st.n ∨ vel.length ≠ st.n ∨ acc.length ≠ st.n then zeroVec st.n
  else st.moveJoints (vadd vel (smul st.kp (vsub pos st.q)))

/-- The back-substitution loop of SerialKinematicControl's
solve_joint_control (lines 225 to 246), building the commands from the
last joint upward; the argument counts the joints still to resolve.
Line 240 of the source calls get_speed_limit with its two reference
arguments swapped, so the caller's variable named lower receives the
computed upper bound and vice versa; the clamp below reproduces that
call site faithfully. -/
def backSub (rsqrt : α → α) (st : CtrlState α) (y : Vec α) (U : Mat α) : ℕ → Vec α
  | 0 => []
  | kk + 1 =>
    let rest := backSub rsqrt st y U kk
    let i := st.n - (kk + 1)
    let s := ((List.range kk).map (fun m2 => entry U i (i + 1 + m2) * rest.getD m2 0)).sum
    let v :=
      if |entry U i i| < 1 / 100000 then (9 / 10) * st.qdot.getD i 0
      else (y.getD i 0 - s) / entry U i i
    let lim := get_speed_limit rsqrt st i
    let lower := lim.2
    let upper := lim.1
    let v2 := if v < lower then lower else if v > upper then upper else v
    v2 :: rest

/-- SerialKinematicControl::solve_joint_control (lines 204 to 248). -/
def solve_joint_control (rsqrt : α → α) (st : CtrlState α) (y : Vec α) (U : Mat α) : Vec α :=
  if y.length ≠ st.n then damped st
  else if nrows U ≠ st.n ∨ ncols U ≠ st.n then damped st
  else backSub rsqrt st y U st.n

end SerialKinematicControl

/-- A one-joint control state over the rationals, used to evaluate the
control layer at concrete inputs. -/
def ctrlStateQ : CtrlState ℚ :=
  { n := 1, q := [0], qdot := [10], pLim := [(-1, 1)], vLim := [1], aLim := [1],
    dt := 1, k := 1, kp := 1,
    qp := ⟨10, 1, 1 / 2, 1, 1 / 2, 10, 1 / 2, 1 / 10⟩,
    jac := [[0], [0], [0], [0], [0], [0]], inertia := [[1]],
    pinv := fun _ => [[0, 0, 0, 0, 0, 0]],
    dJ := fun _ _ => [[0], [0], [0], [0], [0], [0]],
    endpoint := ⟨0, 0, 0, ⟨1, 0, 0, 0⟩⟩, moveJoints := fun v => v }

/-- A one-joint control state over the reals, whose braking terms square
root exactly, used to evaluate the clamp of solve_joint_control. -/
def ctrlStateR : CtrlState ℝ :=
  { n := 1, q := [0], qdot := [5], pLim := [(-1, 1)], vLim := [1], aLim := [1],
    dt := 1, k := 1, kp := 1,
    qp := ⟨1, 1, 1, 1, 1, 1, 1, 1⟩,
    jac := [], inertia := [],
    pinv := fun _ => [],
    dJ := fun _ _ => [],
    endpoint := ⟨0, 0, 0, ⟨1, 0, 0, 0⟩⟩, moveJoints := fun v => v }

/-- Concrete solver tuning used for evaluations: ten steps, unit initial
barrier weight and step scalar, shrink factors one half, barrier bump
ten, tolerance one tenth. -/
def qpParamsA : QPParams ℚ := ⟨10, 1, 1 / 2, 1, 1 / 2, 10, 1 / 2, 1 / 10⟩

/-- Concrete solver tuning with a single step and a tight tolerance. -/
def qpParamsB : QPParams ℚ := ⟨1, 1, 1 / 2, 1, 1 / 2, 10, 1 / 2, 1 / 1000⟩

/-- Feasibility of a point for the inequality constraint rows of B
paired with the entries of c. -/
def feasible (B : Mat α) (c : Vec α) (x : Vec α) : Prop :=
  ∀ pr ∈ B.zip c, pr.2 ≤ dot pr.1 x

instance (B : Mat α) (c : Vec α) (x : Vec α) : Decidable (feasible B c x) := by
  unfold feasible; infer_instance

/-- Componentwise box membership, together with the length agreements
that make the componentwise reading meaningful. -/
def inBox (xMin xMax x : Vec α) : Prop :=
  x.length = xMin.length ∧ x.length = xMax.length ∧
    ∀ i < x.length, xMin.getD i 0 ≤ x.getD i 0 ∧ x.getD i 0 ≤ xMax.getD i 0

instance (xMin xMax x : Vec α) : Decidable (inBox xMin xMax x) := by
  unfold inBox; infer_instance

lemma length_vadd (a b : Vec α) : (vadd a b).length = min a.length b.length := by
  simp [vadd]

lemma length_vsub (a b : Vec α) : (vsub a b).length = min a.length b.length := by
  simp [vsub]

lemma length_smul (s : α) (v : Vec α) : (smul s v).length = v.length := by
  simp [smul]

lemma length_vneg (v : Vec α) : (vneg v).length = v.length := by
  simp [vneg]

lemma length_zeroVec (n : ℕ) : (zeroVec n : Vec α).length = n := by
  simp [zeroVec]

lemma length_matVec (M : Mat α) (v : Vec α) : (matVec M v).length = M.length := by
  simp [matVec]

lemma length_luSolve (A : Mat α) (b : Vec α) : (luSolve A b).length = b.length := by
  simp [luSolve]

lemma dot_vadd_smul (b : Vec α) : ∀ (x y : Vec α) (t : α), b.length = x.length →
    x.length = y.length → dot b (vadd x (smul t y)) = dot b x + t * dot b y := by
  induction b with
  | nil => intro x y t _ _; simp [dot, vadd, smul]
  | cons hb tb ih =>
    intro x y t h1 h2
    cases x with
    | nil => simp at h1
    | cons hx tx =>
      cases y with
      | nil => simp at h2
      | cons hy ty =>
        have hrec := ih tx ty t (by simpa using h1) (by simpa using h2)
        simp only [dot, vadd, smul, List.map_cons, List.zipWith_cons_cons,
          List.sum_cons] at hrec ⊢
        ring_nf
        ring_nf at hrec
        linarith

lemma accum_foldl_spec (uM : α) (x : Vec α) (L : List (Vec α × α)) : ∀ a0 : Accum α,
    (L.foldl (accumStep uM x) a0).d =
        a0.d ++ L.map (fun pr =>
          if dot pr.1 x - pr.2 < 0 then (1 : α) / 100 else dot pr.1 x - pr.2) ∧
      (L.foldl (accumStep uM x) a0).viol =
        (a0.viol || L.any (fun pr => decide (dot pr.1 x - pr.2 < 0))) ∧
      (L.foldl (accumStep uM x) a0).u =
        a0.u * uM ^ L.countP (fun pr => decide (dot pr.1 x - pr.2 < 0)) := by
  induction L with
  | nil => intro a0; simp
  | cons hd tl ih =>
    intro a0
    obtain ⟨ihd, ihv, ihu⟩ := ih (accumStep uM x a0 hd)
    simp only [List.foldl_cons]
    refine ⟨?_, ?_, ?_⟩
    · rw [ihd]
      simp [accumStep, List.append_assoc]
    · rw [ihv]
      simp [accumStep, Bool.or_assoc]
    · rw [ihu]
      by_cases hc : dot hd.1 x - hd.2 < 0
      · have hc2 : dot hd.1 x < hd.2 := by linarith
        simp [accumStep, hc, hc2, List.countP_cons, pow_succ]
        ring
      · have hc2 : ¬ dot hd.1 x < hd.2 := by simp at hc ⊢; linarith
        simp [accumStep, hc, hc2, List.countP_cons]

lemma accum_foldl_g_length (uM : α) (x : Vec α) (n : ℕ) (L : List (Vec α × α))
    (hrows : ∀ pr ∈ L, pr.1.length = n) : ∀ a0 : Accum α, a0.g.length = n →
    ((L.foldl (accumStep uM x) a0).g).length = n := by
  induction L with
  | nil => intro a0 h0; simpa using h0
  | cons hd tl ih =>
    intro a0 h0
    simp only [List.foldl_cons]
    refine ih (fun pr hpr => hrows pr (List.mem_cons_of_mem _ hpr)) _ ?_
    have hhd : hd.1.length = n := hrows hd (List.mem_cons_self _ _)
    simp [accumStep, length_vsub, length_smul, h0, hhd]

lemma shrinkStep_bounds (aM d s : α) (h0 : 0 ≤ aM) (h1 : aM ≤ 1) :
    ∀ (fuel : ℕ) (a : α), 0 ≤ a →
    0 ≤ shrinkStep aM d s fuel a ∧ shrinkStep aM d s fuel a ≤ a := by
  intro fuel
  induction fuel with
  | zero =>
    intro a ha
    simp only [shrinkStep]
    exact ⟨le_refl 0, ha⟩
  | succ m ih =>
    intro a ha
    rw [shrinkStep]
    split_ifs with hc
    · obtain ⟨hr0, hr1⟩ := ih (a * aM) (mul_nonneg ha h0)
      exact ⟨hr0, hr1.trans (mul_le_of_le_one_right ha h1)⟩
    · exact ⟨ha, le_refl a⟩

lemma shrinkStep_post (aM d s : α) (hd : 0 ≤ d) :
    ∀ (fuel : ℕ) (a : α), 0 ≤ d + shrinkStep aM d s fuel a * s := by
  intro fuel
  induction fuel with
  | zero =>
    intro a
    simp only [shrinkStep]
    simpa using hd
  | succ m ih =>
    intro a
    rw [shrinkStep]
    split_ifs with hc
    · exact ih (a * aM)
    · linarith [not_lt.mp hc]

lemma lsFold_bounds (aM : α) (h0 : 0 ≤ aM) (h1 : aM ≤ 1) (L : List (α × α)) :
    ∀ a0 : α, 0 ≤ a0 →
    0 ≤ L.foldl (fun al ds => shrinkStep aM ds.1 ds.2 lsFuel al) a0 ∧
      L.foldl (fun al ds => shrinkStep aM ds.1 ds.2 lsFuel al) a0 ≤ a0 := by
  induction L with
  | nil => intro a0 ha; exact ⟨ha, le_refl a0⟩
  | cons hd tl ih =>
    intro a0 ha
    obtain ⟨hb0, hb1⟩ := shrinkStep_bounds aM hd.1 hd.2 h0 h1 lsFuel a0 ha
    obtain ⟨hr0, hr1⟩ := ih _ hb0
    exact ⟨hr0, by simpa using hr1.trans hb1⟩

lemma affine_between (dv sv A a1 : α) (hdv : 0 ≤ dv) (hpost : 0 ≤ dv + a1 * sv)
    (hA0 : 0 ≤ A) (hA1 : A ≤ a1) : 0 ≤ dv + A * sv := by
  rcases le_or_lt 0 sv with hs | hs
  · nlinarith
  · nlinarith

lemma lsFold_post (aM : α) (h0 : 0 ≤ aM) (h1 : aM ≤ 1) (L : List (α × α))
    (hd : ∀ pr ∈ L, 0 ≤ pr.1) : ∀ a0 : α, 0 ≤ a0 → ∀ pr ∈ L,
    0 ≤ pr.1 + L.foldl (fun al ds => shrinkStep aM ds.1 ds.2 lsFuel al) a0 * pr.2 := by
  induction L with
  | nil => intro a0 _ pr hpr; cases hpr
  | cons hd2 tl ih =>
    intro a0 ha0 pr hpr
    obtain ⟨hb0, hb1⟩ := shrinkStep_bounds aM hd2.1 hd2.2 h0 h1 lsFuel a0 ha0
    obtain ⟨hA0, hA1⟩ := lsFold_bounds aM h0 h1 tl _ hb0
    rcases List.mem_cons.mp hpr with hpr | hpr
    · subst hpr
      have hpost := shrinkStep_post aM pr.1 pr.2 (hd pr (List.mem_cons_self _ _)) lsFuel a0
      simp only [List.foldl_cons]
      exact affine_between pr.1 pr.2 _ _ (hd pr (List.mem_cons_self _ _)) hpost hA0 hA1
    · have := ih (fun q hq => hd q (List.mem_cons_of_mem _ hq)) _ hb0 pr hpr
      simpa using this

lemma iterData_d_eq (p : QPParams α) (H : Mat α) (f : Vec α) (B : Mat α) (c : Vec α)
    (s : IPState α) : (iterData p H f B c s).d =
    ((B.zip c).foldl (accumStep p.uMod s.x) ⟨[], false, s.u, zeroVec s.x.length, H⟩).d := rfl

lemma iterData_viol_eq (p : QPParams α) (H : Mat α) (f : Vec α) (B : Mat α) (c : Vec α)
    (s : IPState α) : (iterData p H f B c s).viol =
    ((B.zip c).foldl (accumStep p.uMod s.x) ⟨[], false, s.u, zeroVec s.x.length, H⟩).viol := rfl

lemma iterData_u1_eq (p : QPParams α) (H : Mat α) (f : Vec α) (B : Mat α) (c : Vec α)
    (s : IPState α) : (iterData p H f B c s).u1 =
    ((B.zip c).foldl (accumStep p.uMod s.x) ⟨[], false, s.u, zeroVec s.x.length, H⟩).u := rfl

lemma iterData_x1_eq (p : QPParams α) (H : Mat α) (f : Vec α) (B : Mat α) (c : Vec α)
    (s : IPState α) : (iterData p H f B c s).x1 =
    if (iterData p H f B c s).viol then s.xPrev else s.x := rfl

lemma iterData_beta1_eq (p : QPParams α) (H : Mat α) (f : Vec α) (B : Mat α) (c : Vec α)
    (s : IPState α) : (iterData p H f B c s).beta1 =
    if (iterData p H f B c s).viol then s.beta + p.betaMod * (1 - s.beta) else s.beta := rfl

lemma iterData_g_eq (p : QPParams α) (H : Mat α) (f : Vec α) (B : Mat α) (c : Vec α)
    (s : IPState α) : (iterData p H f B c s).g =
    vsub (vadd ((B.zip c).foldl (accumStep p.uMod s.x)
      ⟨[], false, s.u, zeroVec s.x.length, H⟩).g (matVec H (iterData p H f B c s).x1)) f := rfl

lemma iterData_dx_eq (p : QPParams α) (H : Mat α) (f : Vec α) (B : Mat α) (c : Vec α)
    (s : IPState α) : (iterData p H f B c s).dx =
    luSolve ((B.zip c).foldl (accumStep p.uMod s.x)
      ⟨[], false, s.u, zeroVec s.x.length, H⟩).hess (vneg (iterData p H f B c s).g) := rfl

lemma iterData_alpha_eq (p : QPParams α) (H : Mat α) (f : Vec α) (B : Mat α) (c : Vec α)
    (s : IPState α) : (iterData p H f B c s).alpha =
    ((iterData p H f B c s).d.zip (B.map (fun bj => dot bj (iterData p H f B c s).dx))).foldl
      (fun al ds => shrinkStep p.alphaMod ds.1 ds.2 lsFuel al) p.alpha0 := rfl

lemma iterNext_x_eq (p : QPParams α) (H : Mat α) (f : Vec α) (B : Mat α) (c : Vec α)
    (s : IPState α) : (iterNext p H f B c s).x =
    vadd (iterData p H f B c s).x1
      (smul (iterData p H f B c s).alpha (iterData p H f B c s).dx) := rfl

lemma iterData_d_spec (p : QPParams α) (H : Mat α) (f : Vec α) (B : Mat α) (c : Vec α)
    (s : IPState α) : (iterData p H f B c s).d = (B.zip c).map
      (fun pr => if dot pr.1 s.x - pr.2 < 0 then (1 : α) / 100 else dot pr.1 s.x - pr.2) := by
  rw [iterData_d_eq]
  have h := (accum_foldl_spec p.uMod s.x (B.zip c)
    ⟨[], false, s.u, zeroVec s.x.length, H⟩).1
  simpa using h

lemma iterData_viol_spec (p : QPParams α) (H : Mat α) (f : Vec α) (B : Mat α) (c : Vec α)
    (s : IPState α) : (iterData p H f B c s).viol =
    (B.zip c).any (fun pr => decide (dot pr.1 s.x - pr.2 < 0)) := by
  rw [iterData_viol_eq]
  have h := (accum_foldl_spec p.uMod s.x (B.zip c)
    ⟨[], false, s.u, zeroVec s.x.length, H⟩).2.1
  simpa using h

lemma iterData_u1_spec (p : QPParams α) (H : Mat α) (f : Vec α) (B : Mat α) (c : Vec α)
    (s : IPState α) : (iterData p H f B c s).u1 =
    s.u * p.uMod ^ (B.zip c).countP (fun pr => decide (dot pr.1 s.x - pr.2 < 0)) := by
  rw [iterData_u1_eq]
  have h := (accum_foldl_spec p.uMod s.x (B.zip c)
    ⟨[], false, s.u, zeroVec s.x.length, H⟩).2.2
  simpa using h

lemma iterData_viol_false (p : QPParams α) (H : Mat α) (f : Vec α) (B : Mat α) (c : Vec α)
    (s : IPState α) (hfeas : feasible B c s.x) : (iterData p H f B c s).viol = false := by
  rw [iterData_viol_spec]
  apply List.any_eq_false.mpr
  intro pr hpr
  simp only [decide_eq_true_eq, not_lt]
  exact sub_nonneg.mpr (hfeas pr hpr)

lemma iterData_x1_of_feasible (p : QPParams α) (H : Mat α) (f : Vec α) (B : Mat α)
    (c : Vec α) (s : IPState α) (hfeas : feasible B c s.x) :
    (iterData p H f B c s).x1 = s.x := by
  rw [iterData_x1_eq, iterData_viol_false p H f B c s hfeas]
  simp

lemma iterData_beta1_of_feasible (p : QPParams α) (H : Mat α) (f : Vec α) (B : Mat α)
    (c : Vec α) (s : IPState α) (hfeas : feasible B c s.x) :
    (iterData p H f B c s).beta1 = s.beta := by
  rw [iterData_beta1_eq, iterData_viol_false p H f B c s hfeas]
  simp

lemma iterData_u1_of_feasible (p : QPParams α) (H : Mat α) (f : Vec α) (B : Mat α)
    (c : Vec α) (s : IPState α) (hfeas : feasible B c s.x) :
    (iterData p H f B c s).u1 = s.u := by
  rw [iterData_u1_spec]
  have hc : (B.zip c).countP (fun pr => decide (dot pr.1 s.x - pr.2 < 0)) = 0 := by
    apply List.countP_eq_zero.mpr
    intro pr hpr
    simp only [decide_eq_true_eq, not_lt]
    exact sub_nonneg.mpr (hfeas pr hpr)
  rw [hc, pow_zero, mul_one]

lemma iterData_d_of_feasible (p : QPParams α) (H : Mat α) (f : Vec α) (B : Mat α)
    (c : Vec α) (s : IPState α) (hfeas : feasible B c s.x) :
    (iterData p H f B c s).d = (B.zip c).map (fun pr => dot pr.1 s.x - pr.2) := by
  rw [iterData_d_spec]
  apply List.map_congr_left
  intro pr hpr
  rw [if_neg (not_lt.mpr (sub_nonneg.mpr (hfeas pr hpr)))]

lemma iterData_g_length (p : QPParams α) (H : Mat α) (f : Vec α) (B : Mat α) (c : Vec α)
    (s : IPState α) (n : ℕ) (hx : s.x.length = n) (hH : H.length = n) (hf : f.length = n)
    (hrows : ∀ r ∈ B, r.length = n) : (iterData p H f B c s).g.length = n := by
  rw [iterData_g_eq]
  have hfold := accum_foldl_g_length p.uMod s.x n (B.zip c)
    (fun pr hpr => hrows pr.1 (List.of_mem_zip hpr).1)
    ⟨[], false, s.u, zeroVec s.x.length, H⟩ (by simp [length_zeroVec, hx])
  simp [length_vsub, length_vadd, length_matVec, hfold, hH, hf]

lemma iterData_dx_length (p : QPParams α) (H : Mat α) (f : Vec α) (B : Mat α) (c : Vec α)
    (s : IPState α) (n : ℕ) (hx : s.x.length = n) (hH : H.length = n) (hf : f.length = n)
    (hrows : ∀ r ∈ B, r.length = n) : (iterData p H f B c s).dx.length = n := by
  rw [iterData_dx_eq, length_luSolve, length_vneg]
  exact iterData_g_length p H f B c s n hx hH hf hrows

lemma iterData_ls_list (p : QPParams α) (H : Mat α) (f : Vec α) (B : Mat α) (c : Vec α)
    (s : IPState α) (hBc : B.length = c.length) (hfeas : feasible B c s.x) :
    (iterData p H f B c s).d.zip (B.map (fun bj => dot bj (iterData p H f B c s).dx)) =
    (B.zip c).map (fun q => (dot q.1 s.x - q.2, dot q.1 (iterData p H f B c s).dx)) := by
  rw [iterData_d_of_feasible p H f B c s hfeas]
  have hBmap : ∀ w : Vec α, B.map (fun bj => dot bj w) =
      (B.zip c).map (fun q => dot q.1 w) := by
    intro w
    conv_lhs => rw [← List.map_fst_zip B c (le_of_eq hBc)]
    rw [List.map_map]
    rfl
  rw [hBmap, List.zip_map']

lemma iterNext_feasible_step (p : QPParams α) (H : Mat α) (f : Vec α) (B : Mat α)
    (c : Vec α) (s : IPState α) (n : ℕ) (hBc : B.length = c.length)
    (hrows : ∀ r ∈ B, r.length = n) (hH : H.length = n) (hf : f.length = n)
    (h0 : 0 ≤ p.alphaMod) (h1 : p.alphaMod ≤ 1) (ha0 : 0 ≤ p.alpha0)
    (hx : s.x.length = n) (hfeas : feasible B c s.x) :
    feasible B c (iterNext p H f B c s).x ∧ (iterNext p H f B c s).x.length = n := by
  have hx1 := iterData_x1_of_feasible p H f B c s hfeas
  have hdxlen := iterData_dx_length p H f B c s n hx hH hf hrows
  constructor
  · intro pr hpr
    have hb : pr.1.length = n := hrows pr.1 (List.of_mem_zip hpr).1
    rw [iterNext_x_eq, hx1,
      dot_vadd_smul pr.1 s.x (iterData p H f B c s).dx (iterData p H f B c s).alpha
        (hb.trans hx.symm) (hx.trans hdxlen.symm)]
    have hL2 := iterData_ls_list p H f B c s hBc hfeas
    have hpost := lsFold_post p.alphaMod h0 h1
      ((B.zip c).map (fun q => (dot q.1 s.x - q.2, dot q.1 (iterData p H f B c s).dx)))
      (by
        intro q hq
        obtain ⟨q0, hq0, rfl⟩ := List.mem_map.mp hq
        exact sub_nonneg.mpr (hfeas q0 hq0))
      p.alpha0 ha0
    have hmem : (dot pr.1 s.x - pr.2, dot pr.1 (iterData p H f B c s).dx) ∈
        (B.zip c).map (fun q => (dot q.1 s.x - q.2, dot q.1 (iterData p H f B c s).dx)) :=
      List.mem_map_of_mem _ hpr
    have hval := hpost _ hmem
    have halpha : (iterData p H f B c s).alpha =
        ((B.zip c).map (fun q => (dot q.1 s.x - q.2,
          dot q.1 (iterData p H f B c s).dx))).foldl
          (fun al ds => shrinkStep p.alphaMod ds.1 ds.2 lsFuel al) p.alpha0 := by
      rw [iterData_alpha_eq, hL2]
    rw [← halpha] at hval
    simp only at hval
    linarith
  · rw [iterNext_x_eq, hx1, length_vadd, length_smul, hdxlen, hx, min_self]

lemma ipLoop_feasible (p : QPParams α) (H : Mat α) (f : Vec α) (B : Mat α) (c : Vec α)
    (n : ℕ) (hBc : B.length = c.length) (hrows : ∀ r ∈ B, r.length = n)
    (hH : H.length = n) (hf : f.length = n) (h0 : 0 ≤ p.alphaMod) (h1 : p.alphaMod ≤ 1)
    (ha0 : 0 ≤ p.alpha0) : ∀ (fuel : ℕ) (s : IPState α), s.x.length = n →
    feasible B c s.x →
    feasible B c (ipLoop p H f B c fuel s) ∧ (ipLoop p H f B c fuel s).length = n := by
  intro fuel
  induction fuel with
  | zero =>
    intro s hx hfeas
    simp only [ipLoop]
    exact ⟨hfeas, hx⟩
  | succ m ih =>
    intro s hx hfeas
    rw [ipLoop]
    split_ifs with hb
    · rw [iterData_x1_of_feasible p H f B c s hfeas]
      exact ⟨hfeas, hx⟩
    · obtain ⟨hfn, hxn⟩ := iterNext_feasible_step p H f B c s n hBc hrows hH hf h0 h1 ha0
        hx hfeas
      exact ih _ hxn hfn

lemma solve_feasible (p : QPParams α) (H : Mat α) (f : Vec α) (B : Mat α) (c : Vec α)
    (x0 : Vec α) (hrows : ∀ r ∈ B, r.length = x0.length) (h0 : 0 ≤ p.alphaMod)
    (h1 : p.alphaMod ≤ 1) (ha0 : 0 ≤ p.alpha0) (hfeas : feasible B c x0) :
    feasible B c (QPSolver.solve p H f B c x0) ∧
      (QPSolver.solve p H f B c x0).length = x0.length := by
  unfold QPSolver.solve
  by_cases hg : QPSolver.dimMismatchIneq H f B c x0 = true
  · rw [if_pos hg]
    exact ⟨hfeas, rfl⟩
  · rw [if_neg hg]
    have hg2 := hg
    unfold QPSolver.dimMismatchIneq QPSolver.dimMismatch at hg2
    simp only [Bool.or_eq_true, decide_eq_true_eq, not_or] at hg2
    obtain ⟨⟨⟨hH, _⟩, hf⟩, hBc⟩ := hg2
    push_neg at hH hf hBc
    exact ipLoop_feasible p H f B c x0.length hBc hrows hH hf h0 h1 ha0 p.steps
      ⟨x0, x0, p.u0, p.beta0⟩ rfl hfeas

lemma dot_zero_row (l : List ℕ) : ∀ v : Vec α, dot (l.map (fun _ => (0 : α))) v = 0 := by
  induction l with
  | nil => intro v; simp [dot]
  | cons hd tl ih =>
    intro v
    cases v with
    | nil => simp [dot]
    | cons hv tv => simpa [dot] using ih tv

lemma dot_delta (x : Vec α) : ∀ (n i : ℕ), x.length = n → i < n →
    dot ((List.range n).map (fun j => if i = j then (1 : α) else 0)) x = x.getD i 0 := by
  induction x with
  | nil =>
    intro n i hx hi
    simp at hx
    omega
  | cons hx0 tx ih =>
    intro n i hx hi
    cases n with
    | zero => omega
    | succ m =>
      rw [List.range_succ_eq_map, List.map_cons, List.map_map]
      cases i with
      | zero =>
        have hzero : ((List.range m).map ((fun j => if 0 = j then (1 : α) else 0) ∘
            Nat.succ)) = (List.range m).map (fun _ => (0 : α)) := by
          apply List.map_congr_left
          intro a _
          simp
        simp only [dot, List.zipWith_cons_cons, List.sum_cons, if_pos rfl]
        rw [show List.zipWith (· * ·) (List.map ((fun j => if 0 = j then (1 : α) else 0) ∘
            Nat.succ) (List.range m)) tx = List.zipWith (· * ·)
            ((List.range m).map (fun _ => (0 : α))) tx by rw [hzero]]
        have := dot_zero_row (α := α) (List.range m) tx
        simp only [dot] at this
        rw [this]
        simp
      | succ i0 =>
        have hdelta : ((List.range m).map ((fun j => if i0 + 1 = j then (1 : α) else 0) ∘
            Nat.succ)) = (List.range m).map (fun j => if i0 = j then (1 : α) else 0) := by
          apply List.map_congr_left
          intro a _
          simp
        have hrec := ih m i0 (by simpa using hx) (by omega)
        simp only [dot, List.zipWith_cons_cons, List.sum_cons] at hrec ⊢
        rw [if_neg (by omega), hdelta, hrec]
        simp

lemma idMat_row (n i : ℕ) (hi : i < n) :
    (idMat n : Mat α).getD i [] = (List.range n).map (fun j => if i = j then (1 : α) else 0) := by
  unfold idMat
  rw [List.getD_eq_getElem _ _ (by simpa using hi), List.getElem_map, List.getElem_range]

lemma idMat_mem_length (n : ℕ) (r : Vec α) (hr : r ∈ (idMat n : Mat α)) : r.length = n := by
  unfold idMat at hr
  obtain ⟨i, _, rfl⟩ := List.mem_map.mp hr
  simp

lemma feasible_iff_index (B : Mat α) (c : Vec α) (x : Vec α) (hBc : B.length = c.length) :
    feasible B c x ↔ ∀ i, i < B.length → c.getD i 0 ≤ dot (B.getD i []) x := by
  constructor
  · intro h i hi
    have hic : i < c.length := hBc ▸ hi
    have hiz : i < (B.zip c).length := by
      rw [List.length_zip]
      omega
    have hval := h _ (List.getElem_mem hiz)
    rw [List.getElem_zip] at hval
    rw [List.getD_eq_getElem _ _ hi, List.getD_eq_getElem _ _ hic]
    exact hval
  · intro h pr hpr
    obtain ⟨i, hi, heq⟩ := List.mem_iff_getElem.mp hpr
    rw [List.getElem_zip] at heq
    have hiB : i < B.length := by
      rw [List.length_zip] at hi
      omega
    have hiC : i < c.length := by
      rw [List.length_zip] at hi
      omega
    have hv := h i hiB
    rw [List.getD_eq_getElem _ _ hiB, List.getD_eq_getElem _ _ hiC] at hv
    rw [← heq]
    exact hv

lemma dot_smul_left (t : α) (r : Vec α) : ∀ v : Vec α, dot (smul t r) v = t * dot r v := by
  induction r with
  | nil => intro v; simp [dot, smul]
  | cons hr tr ih =>
    intro v
    cases v with
    | nil => simp [dot, smul]
    | cons hv tv =>
      simp only [smul, List.map_cons, dot, List.zipWith_cons_cons, List.sum_cons]
      have hrec := ih tv
      simp only [dot, smul] at hrec
      rw [hrec]
      ring

lemma vneg_eq_smul (r : Vec α) : vneg r = smul (-1) r := by
  unfold vneg smul
  apply List.map_congr_left
  intro a _
  ring

lemma mapneg_getD (l : Vec α) (i : ℕ) (hi : i < l.length) :
    (l.map (fun v => -v)).getD i 0 = -(l.getD i 0) := by
  rw [List.getD_eq_getElem _ _ (by simpa using hi), List.getElem_map,
    List.getD_eq_getElem _ _ hi]

lemma map_vneg_getD (M : Mat α) (i : ℕ) (hi : i < M.length) :
    (M.map vneg).getD i [] = vneg (M.getD i []) := by
  rw [List.getD_eq_getElem _ _ (by simpa using hi), List.getElem_map,
    List.getD_eq_getElem _ _ hi]

lemma dot_neg_delta (n i : ℕ) (x : Vec α) (hx : x.length = n) (hi : i < n) :
    dot (vneg ((List.range n).map (fun j => if i = j then (1 : α) else 0))) x =
    -(x.getD i 0) := by
  rw [vneg_eq_smul, dot_smul_left, dot_delta x n i hx hi]
  ring

lemma feasible_box_iff (n : ℕ) (xMin xMax x : Vec α) (hMin : xMin.length = n)
    (hMax : xMax.length = n) (hx : x.length = n) :
    feasible ((idMat n).map vneg ++ idMat n) (xMax.map (fun v => -v) ++ xMin) x ↔
    ∀ i < n, xMin.getD i 0 ≤ x.getD i 0 ∧ x.getD i 0 ≤ xMax.getD i 0 := by
  have hlen1 : ((idMat n : Mat α).map vneg).length = n := by simp [idMat]
  have hlen2 : (xMax.map (fun v => -v)).length = n := by simp [hMax]
  have hlenId : (idMat n : Mat α).length = n := by simp [idMat]
  have hlenB : ((idMat n : Mat α).map vneg ++ idMat n).length = 2 * n := by
    simp [idMat]
    omega
  have hlenc : (xMax.map (fun v => -v) ++ xMin).length = 2 * n := by
    simp [hMin, hMax]
    omega
  have hup : ∀ i < n, ((idMat n : Mat α).map vneg ++ idMat n).getD i [] =
      vneg ((List.range n).map (fun j => if i = j then (1 : α) else 0)) := by
    intro i hi
    rw [List.getD_append _ _ _ _ (by omega), map_vneg_getD _ _ (by omega), idMat_row n i hi]
  have hupc : ∀ i < n, ((xMax.map (fun v => -v) ++ xMin) : Vec α).getD i 0 =
      -(xMax.getD i 0) := by
    intro i hi
    rw [List.getD_append _ _ _ _ (by omega), mapneg_getD _ _ (by omega)]
  have hlo : ∀ i < n, ((idMat n : Mat α).map vneg ++ idMat n).getD (n + i) [] =
      (List.range n).map (fun j => if i = j then (1 : α) else 0) := by
    intro i hi
    rw [List.getD_append_right _ _ _ _ (by omega)]
    rw [hlen1, Nat.add_sub_cancel_left]
    exact idMat_row n i hi
  have hloc : ∀ i < n, ((xMax.map (fun v => -v) ++ xMin) : Vec α).getD (n + i) 0 =
      xMin.getD i 0 := by
    intro i hi
    rw [List.getD_append_right _ _ _ _ (by omega)]
    rw [hlen2, Nat.add_sub_cancel_left]
  rw [feasible_iff_index _ _ x (by omega)]
  constructor
  · intro h i hi
    constructor
    · have hv := h (n + i) (by omega)
      rw [hlo i hi, hloc i hi, dot_delta x n i hx hi] at hv
      exact hv
    · have hv := h i (by omega)
      rw [hup i hi, hupc i hi, dot_neg_delta n i x hx hi] at hv
      linarith
  · intro h i hi
    rw [hlenB] at hi
    by_cases hin : i < n
    · rw [hup i hin, hupc i hin, dot_neg_delta n i x hx hin]
      have := (h i hin).2
      linarith
    · have hi2 : i - n < n := by omega
      have hieq : i = n + (i - n) := by omega
      rw [hieq, hlo _ hi2, hloc _ hi2, dot_delta x n _ hx hi2]
      exact (h _ hi2).1

lemma least_squares_box_inBox (p : QPParams α) (y : Vec α) (A W : Mat α)
    (xMin xMax x0 : Vec α) (h0 : 0 ≤ p.alphaMod) (h1 : p.alphaMod ≤ 1)
    (ha0 : 0 ≤ p.alpha0) (hbox : inBox xMin xMax x0) :
    inBox xMin xMax (QPSolver.least_squares_box p y A W xMin xMax x0) := by
  unfold QPSolver.least_squares_box
  dsimp only
  split_ifs with hg1 hg2
  · exact hbox
  · exact hbox
  · push_neg at hg1
    obtain ⟨hy, hx0n, hMinn, hMaxn, _⟩ := hg1
    have hrows : ∀ r ∈ ((idMat (ncols A) : Mat α).map vneg ++ idMat (ncols A)),
        r.length = x0.length := by
      intro r hr
      rcases List.mem_append.mp hr with hr | hr
      · obtain ⟨r0, hr0, rfl⟩ := List.mem_map.mp hr
        rw [length_vneg, idMat_mem_length (ncols A) r0 hr0, hx0n]
      · rw [idMat_mem_length (ncols A) r hr, hx0n]
    obtain ⟨hbl1, hbl2, hcomp⟩ := hbox
    have hfeas0 : feasible ((idMat (ncols A)).map vneg ++ idMat (ncols A))
        (xMax.map (fun v => -v) ++ xMin) x0 := by
      rw [feasible_box_iff (ncols A) xMin xMax x0 hMinn hMaxn hx0n]
      intro i hi
      exact hcomp i (by omega)
    obtain ⟨hfeasR, hlenR⟩ := solve_feasible p (matMul (matMul (transposeM A) W) A)
      (matVec (matMul (transposeM A) W) y) _ _ x0 hrows h0 h1 ha0 hfeas0
    refine ⟨?_, ?_, ?_⟩
    · rw [hlenR, hx0n, hMinn]
    · rw [hlenR, hx0n, hMaxn]
    · intro i hi
      rw [hlenR, hx0n] at hi
      exact (feasible_box_iff (ncols A) xMin xMax _ hMinn hMaxn
        (by rw [hlenR, hx0n])).mp hfeasR i hi

lemma ipLoop_runs (p : QPParams α) (H : Mat α) (f : Vec α) (B : Mat α) (c : Vec α) :
    ∀ (fuel : ℕ) (s : IPState α), ∃ k, k ≤ fuel ∧
    (∀ j, j < k → ¬ ipBreak p H f B c ((iterNext p H f B c)^[j] s)) ∧
    ((k < fuel ∧ ipBreak p H f B c ((iterNext p H f B c)^[k] s) ∧
        ipLoop p H f B c fuel s = (iterData p H f B c ((iterNext p H f B c)^[k] s)).x1) ∨
      (k = fuel ∧ ipLoop p H f B c fuel s = ((iterNext p H f B c)^[fuel] s).x)) := by
  intro fuel
  induction fuel with
  | zero =>
    intro s
    refine ⟨0, le_refl 0, fun j hj => absurd hj (Nat.not_lt_zero j), Or.inr ⟨rfl, ?_⟩⟩
    simp [ipLoop]
  | succ m ih =>
    intro s
    by_cases hb : ipBreak p H f B c s
    · refine ⟨0, by omega, fun j hj => absurd hj (Nat.not_lt_zero j),
        Or.inl ⟨by omega, by simpa using hb, ?_⟩⟩
      rw [ipLoop, if_pos hb]
      simp
    · obtain ⟨k, hk, hnb, hres⟩ := ih (iterNext p H f B c s)
      refine ⟨k + 1, by omega, ?_, ?_⟩
      · intro j hj
        cases j with
        | zero => simpa using hb
        | succ j0 =>
          rw [Function.iterate_succ_apply]
          exact hnb j0 (by omega)
      · rcases hres with ⟨hk2, hbk, heq⟩ | ⟨hk2, heq⟩
        · refine Or.inl ⟨by omega, ?_, ?_⟩
          · rw [Function.iterate_succ_apply]
            exact hbk
          · rw [ipLoop, if_neg hb, heq, Function.iterate_succ_apply]
        · refine Or.inr ⟨by omega, ?_⟩
          rw [ipLoop, if_neg hb, heq, ← Function.iterate_succ_apply]

lemma shrinkStep_lsFuel_exit (aM d s a : α) (h : ¬ d + a * s < 0) :
    shrinkStep aM d s lsFuel a = a := by
  rw [show lsFuel = 9999 + 1 from rfl, shrinkStep, if_neg h]

lemma ipLoop_succ_of_break (p : QPParams α) (H : Mat α) (f : Vec α) (B : Mat α)
    (c : Vec α) (fuel : ℕ) (s : IPState α) (hb : ipBreak p H f B c s) :
    ipLoop p H f B c (fuel + 1) s = (iterData p H f B c s).x1 := by
  rw [ipLoop, if_pos hb]

lemma ipLoop_succ_of_not_break (p : QPParams α) (H : Mat α) (f : Vec α) (B : Mat α)
    (c : Vec α) (fuel : ℕ) (s : IPState α) (hb : ¬ ipBreak p H f B c s) :
    ipLoop p H f B c (fuel + 1) s = ipLoop p H f B c fuel (iterNext p H f B c s) := by
  rw [ipLoop, if_neg hb]

/-- Claim C1, counterexample: the three-argument track_joint_trajectory
returns the zero vector on a dimension mismatch, not nine tenths of the
current joint velocity, so the claim that every listed operation returns
the damped fallback on every mismatched input is false. -/
theorem C1_zero_fallback_counterexample :
    ([] : Vec ℚ).length ≠ ctrlStateQ.n ∧
      SerialKinematicControl.track_joint_trajectory_acc ctrlStateQ [] [] [] =
        zeroVec ctrlStateQ.n ∧
      SerialKinematicControl.track_joint_trajectory_acc ctrlStateQ [] [] [] ≠
        smul (9 / 10) ctrlStateQ.qdot := by
  refine ⟨by decide, ?_, ?_⟩
  · norm_num [SerialKinematicControl.track_joint_trajectory_acc, ctrlStateQ, zeroVec]
  · norm_num [SerialKinematicControl.track_joint_trajectory_acc, ctrlStateQ, zeroVec, smul]

/-- Claim C1, amended: every listed control-law operation returns nine
tenths of the current joint velocity vector on a dimension-mismatched
input, except the three-argument track_joint_trajectory, which returns
the zero vector. -/
theorem C1_mismatch_fallbacks {α : Type} [LinearOrderedField α] (rsqrt : α → α)
    (st : CtrlState α) (pos vel acc redundant y y2 : Vec α) (U : Mat α)
    (pose : PoseQ α) (vel6 : Vec α) (hpos : pos.length ≠ st.n)
    (hred : redundant.length ≠ st.n) (hy : y.length ≠ st.n)
    (hy2 : y2.length = st.n) (hU : nrows U ≠ st.n ∨ ncols U ≠ st.n) :
    SerialKinematicControl.move_to_position rsqrt st pos =
        SerialKinematicControl.damped st ∧
      SerialKinematicControl.move_at_speed rsqrt st vel6 redundant =
        SerialKinematicControl.damped st ∧
      SerialKinematicControl.move_to_pose rsqrt st pose redundant =
        SerialKinematicControl.damped st ∧
      SerialKinematicControl.track_cartesian_trajectory rsqrt st pose vel6 redundant =
        SerialKinematicControl.damped st ∧
      SerialKinematicControl.track_joint_trajectory rsqrt st pos vel =
        SerialKinematicControl.damped st ∧
      SerialKinematicControl.solve_joint_control rsqrt st y U =
        SerialKinematicControl.damped st ∧
      SerialKinematicControl.solve_joint_control rsqrt st y2 U =
        SerialKinematicControl.damped st ∧
      SerialKinematicControl.track_joint_trajectory_acc st pos vel acc = zeroVec st.n := by
  refine ⟨?_, ?_, ?_, ?_, ?_, ?_, ?_, ?_⟩
  · unfold SerialKinematicControl.move_to_position
    rw [if_pos hpos]
  · unfold SerialKinematicControl.move_at_speed
    rw [if_pos hred]
  · unfold SerialKinematicControl.move_to_pose
    rw [if_pos hred]
  · unfold SerialKinematicControl.track_cartesian_trajectory
    rw [if_pos hred]
  · unfold SerialKinematicControl.track_joint_trajectory
    rw [if_pos (Or.inl hpos)]
  · unfold SerialKinematicControl.solve_joint_control
    rw [if_pos hy]
  · unfold SerialKinematicControl.solve_joint_control
    rw [if_neg (by simp [hy2]), if_pos hU]
  · unfold SerialKinematicControl.track_joint_trajectory_acc
    rw [if_pos (Or.inl hpos)]

/-- Concrete instance of the amended claim C1 at a one-joint state. -/
theorem C1_mismatch_fallbacks_witness :
    ([] : Vec ℚ).length ≠ ctrlStateQ.n ∧
      (SerialKinematicControl.move_to_position id ctrlStateQ [] =
          SerialKinematicControl.damped ctrlStateQ ∧
        SerialKinematicControl.move_at_speed id ctrlStateQ [0, 0, 0, 0, 0, 0] [] =
          SerialKinematicControl.damped ctrlStateQ ∧
        SerialKinematicControl.move_to_pose id ctrlStateQ ⟨0, 0, 0, ⟨1, 0, 0, 0⟩⟩ [] =
          SerialKinematicControl.damped ctrlStateQ ∧
        SerialKinematicControl.track_cartesian_trajectory id ctrlStateQ
            ⟨0, 0, 0, ⟨1, 0, 0, 0⟩⟩ [0, 0, 0, 0, 0, 0] [] =
          SerialKinematicControl.damped ctrlStateQ ∧
        SerialKinematicControl.track_joint_trajectory id ctrlStateQ [] [] =
          SerialKinematicControl.damped ctrlStateQ ∧
        SerialKinematicControl.solve_joint_control id ctrlStateQ [] [] =
          SerialKinematicControl.damped ctrlStateQ ∧
        SerialKinematicControl.solve_joint_control id ctrlStateQ [0] [] =
          SerialKinematicControl.damped ctrlStateQ ∧
        SerialKinematicControl.track_joint_trajectory_acc ctrlStateQ [] [] [] =
          zeroVec ctrlStateQ.n) :=
  ⟨by decide,
    C1_mismatch_fallbacks id ctrlStateQ [] [] [] [] [] [0] []
      ⟨0, 0, 0, ⟨1, 0, 0, 0⟩⟩ [0, 0, 0, 0, 0, 0] (by decide) (by decide) (by decide)
      (by decide) (by decide)⟩

/-- Claim C2, counterexample: an inequality-constrained solve whose
initial guess violates the constraint can return an infeasible point,
here the untouched infeasible initial guess after the first Newton step
falls below the tolerance, so the unconditional feasibility claim is
false. -/
theorem C2_infeasible_start_counterexample :
    QPSolver.dimMismatchIneq ([[1]] : Mat ℚ) [0] [[1]] [1] [0] = false ∧
      QPSolver.solve qpParamsA [[1]] [0] [[1]] [1] [0] = [0] ∧
      ¬ feasible [[1]] [1] (QPSolver.solve qpParamsA [[1]] [0] [[1]] [1] [0]) := by
  have hg0 : QPSolver.dimMismatchIneq ([[1]] : Mat ℚ) [0] [[1]] [1] [0] = false := by
    norm_num [QPSolver.dimMismatchIneq, QPSolver.dimMismatch, nrows, ncols]
  have hviol : (iterData qpParamsA [[1]] [0] [[1]] [1]
      (⟨[0], [0], 1, 1 / 2⟩ : IPState ℚ)).viol = true := by
    rw [iterData_viol_spec]
    norm_num [dot]
  have haF : ((([[1]] : Mat ℚ).zip [1]).foldl (accumStep qpParamsA.uMod [0])
      ⟨[], false, 1, zeroVec ([0] : Vec ℚ).length, [[1]]⟩) =
      (⟨[1 / 100], true, 10, [-1000], [[100001]]⟩ : Accum ℚ) := by
    norm_num [accumStep, zeroVec, dot, vsub, vadd, smul, smulM, outer, matAdd, qpParamsA]
  have hx1 : (iterData qpParamsA [[1]] [0] [[1]] [1]
      (⟨[0], [0], 1, 1 / 2⟩ : IPState ℚ)).x1 = [0] := by
    rw [iterData_x1_eq, hviol]
    simp
  have hgv : (iterData qpParamsA [[1]] [0] [[1]] [1]
      (⟨[0], [0], 1, 1 / 2⟩ : IPState ℚ)).g = [-1000] := by
    rw [iterData_g_eq]
    rw [show (⟨[0], [0], 1, 1 / 2⟩ : IPState ℚ).x = [0] from rfl,
      show (⟨[0], [0], 1, 1 / 2⟩ : IPState ℚ).u = (1 : ℚ) from rfl]
    rw [haF, hx1]
    norm_num [matVec, dot, vadd, vsub]
  have hdx : (iterData qpParamsA [[1]] [0] [[1]] [1]
      (⟨[0], [0], 1, 1 / 2⟩ : IPState ℚ)).dx = [1000 / 100001] := by
    rw [iterData_dx_eq]
    rw [show (⟨[0], [0], 1, 1 / 2⟩ : IPState ℚ).x = [0] from rfl,
      show (⟨[0], [0], 1, 1 / 2⟩ : IPState ℚ).u = (1 : ℚ) from rfl]
    rw [haF, hgv]
    norm_num [luSolve, vneg, detL, setCol, List.range_succ, List.range_zero]
  have halpha : (iterData qpParamsA [[1]] [0] [[1]] [1]
      (⟨[0], [0], 1, 1 / 2⟩ : IPState ℚ)).alpha = 1 := by
    rw [iterData_alpha_eq]
    rw [iterData_d_spec, hdx]
    norm_num [dot, List.foldl, qpParamsA]
    rw [shrinkStep_lsFuel_exit _ _ _ _ (by norm_num)]
  have hbreak : ipBreak qpParamsA [[1]] [0] [[1]] [1]
      (⟨[0], [0], 1, 1 / 2⟩ : IPState ℚ) := by
    unfold ipBreak
    rw [halpha, hdx]
    norm_num [dot, qpParamsA]
  have hsol : QPSolver.solve qpParamsA [[1]] [0] [[1]] [1] [0] = [0] := by
    have hfin : QPSolver.solve qpParamsA [[1]] [0] [[1]] [1] [0] =
        ipLoop qpParamsA [[1]] [0] [[1]] [1] qpParamsA.steps
          ⟨[0], [0], qpParamsA.u0, qpParamsA.beta0⟩ := by
      unfold QPSolver.solve
      rw [hg0]
      simp
    rw [hfin]
    rw [show (⟨[0], [0], qpParamsA.u0, qpParamsA.beta0⟩ : IPState ℚ) =
      (⟨[0], [0], 1, 1 / 2⟩ : IPState ℚ) from rfl]
    rw [show qpParamsA.steps = 9 + 1 from rfl]
    rw [ipLoop_succ_of_break _ _ _ _ _ _ _ hbreak, hx1]
  refine ⟨hg0, hsol, ?_⟩
  rw [hsol]
  norm_num [feasible, dot]

/-- Claim C2, amended: whenever the initial guess itself satisfies the
constraints (and the step-size schedule only ever shrinks a nonnegative
initial step scalar), every accepted iterate keeps the constraints
satisfied, so the returned point of the inequality-constrained solve is
feasible, and the box-constrained least-squares stays within the box
whenever the initial guess does. -/
theorem C2_feasible_solution {α : Type} [LinearOrderedField α] :
    (∀ (p : QPParams α) (H : Mat α) (f : Vec α) (B : Mat α) (c x0 : Vec α),
        (∀ r ∈ B, r.length = x0.length) → 0 ≤ p.alphaMod → p.alphaMod ≤ 1 →
        0 ≤ p.alpha0 → feasible B c x0 → feasible B c (QPSolver.solve p H f B c x0)) ∧
      (∀ (p : QPParams α) (y : Vec α) (A W : Mat α) (xMin xMax x0 : Vec α),
        0 ≤ p.alphaMod → p.alphaMod ≤ 1 → 0 ≤ p.alpha0 → inBox xMin xMax x0 →
        inBox xMin xMax (QPSolver.least_squares_box p y A W xMin xMax x0)) :=
  ⟨fun p H f B c x0 hrows h0 h1 ha0 hfeas =>
      (solve_feasible p H f B c x0 hrows h0 h1 ha0 hfeas).1,
    fun p y A W xMin xMax x0 h0 h1 ha0 hbox =>
      least_squares_box_inBox p y A W xMin xMax x0 h0 h1 ha0 hbox⟩

/-- Concrete instance of the amended claim C2: a feasible start stays
feasible, and a box-constrained start stays inside the box. -/
theorem C2_feasible_solution_witness :
    (∀ r ∈ ([[1]] : Mat ℚ), r.length = ([1] : Vec ℚ).length) ∧
      feasible ([[1]] : Mat ℚ) [0] [1] ∧
      inBox ([0] : Vec ℚ) [1] [1 / 2] ∧
      feasible ([[1]] : Mat ℚ) [0] (QPSolver.solve qpParamsA [[1]] [0] [[1]] [0] [1]) ∧
      inBox ([0] : Vec ℚ) [1]
        (QPSolver.least_squares_box qpParamsA [2] [[1]] [[1]] [0] [1] [1 / 2]) :=
  ⟨by decide, by norm_num [feasible, dot], by norm_num [inBox, Nat.lt_one_iff],
    C2_feasible_solution.1 qpParamsA [[1]] [0] [[1]] [0] [1] (by decide)
      (by norm_num [qpParamsA]) (by norm_num [qpParamsA]) (by norm_num [qpParamsA])
      (by norm_num [feasible, dot]),
    C2_feasible_solution.2 qpParamsA [2] [[1]] [[1]] [0] [1] [1 / 2]
      (by norm_num [qpParamsA]) (by norm_num [qpParamsA]) (by norm_num [qpParamsA])
      (by norm_num [inBox, Nat.lt_one_iff])⟩

/-- Claim C3: solve_joint_control passes its two speed-bound reference
arguments swapped at the clamp of its back-substitution loop (source
line 240), so at a one-joint state whose instantaneous speed bounds are
minus one and one, the back-substituted command zero of the unit
triangular system, although already inside the bounds, is clamped to
the upper bound one instead of being returned unchanged. -/
theorem C3_swapped_speed_limit_clamp :
    SerialKinematicControl.get_speed_limit Real.sqrt ctrlStateR 0 = (-1, 1) ∧
      SerialKinematicControl.solve_joint_control Real.sqrt ctrlStateR [0] [[1]] = [1] := by
  have hlim : SerialKinematicControl.get_speed_limit Real.sqrt ctrlStateR 0 = (-1, 1) := by
    unfold SerialKinematicControl.get_speed_limit
    norm_num [ctrlStateR, Real.sqrt_one, max_def, min_def]
  refine ⟨hlim, ?_⟩
  unfold SerialKinematicControl.solve_joint_control
  rw [if_neg (by norm_num [ctrlStateR]), if_neg (by norm_num [ctrlStateR, nrows, ncols])]
  rw [show ctrlStateR.n = 0 + 1 from rfl]
  rw [SerialKinematicControl.backSub]
  norm_num [SerialKinematicControl.backSub, entry, ctrlStateR, abs]
  norm_num [ctrlStateR] at hlim
  rw [hlim]
  norm_num

/-- Claim C4: the source negates the quaternion-error vector part when
the quaternion dot product is positive and keeps it when the dot product
is nonpositive, the reverse of the claim and of the source's own inline
comments; at a desired orientation a rotation away from the actual one
with positive dot product, the returned tail is the negated vector
part. -/
theorem C4_pose_error_sign_bug :
    0 < qdotQ (⟨3 / 5, 4 / 5, 0, 0⟩ : Quat ℚ) ⟨1, 0, 0, 0⟩ ∧
      qvec (qmul (⟨3 / 5, 4 / 5, 0, 0⟩ : Quat ℚ) (qconj ⟨1, 0, 0, 0⟩)) = [4 / 5, 0, 0] ∧
      SerialKinematicControl.get_pose_error (⟨1, 2, 3, ⟨3 / 5, 4 / 5, 0, 0⟩⟩ : PoseQ ℚ)
          ⟨0, 0, 0, ⟨1, 0, 0, 0⟩⟩ = [1, 2, 3, -(4 / 5), 0, 0] := by
  refine ⟨by norm_num [qdotQ], by norm_num [qvec, qmul, qconj], ?_⟩
  norm_num [SerialKinematicControl.get_pose_error, qmul, qconj, qvec, qdotQ, vneg]

/-- Claim C5, counterexample: the dimension guard of the constrained
QPSolver::solve never inspects the column count of B, so a B whose
column count disagrees with the size of x0 passes the guard and the
solver proceeds instead of aborting and returning x0 unchanged. -/
theorem C5_unchecked_B_columns_counterexample :
    QPSolver.dimMismatchIneq ([[1]] : Mat ℚ) [0] [[1, 5]] [-1] [0] = false ∧
      ncols ([[1, 5]] : Mat ℚ) ≠ ([0] : Vec ℚ).length ∧
      QPSolver.solve qpParamsB [[1]] [0] [[1, 5]] [-1] [0] ≠ [0] := by
  have hg0 : QPSolver.dimMismatchIneq ([[1]] : Mat ℚ) [0] [[1, 5]] [-1] [0] = false := by
    norm_num [QPSolver.dimMismatchIneq, QPSolver.dimMismatch, nrows, ncols]
  have hviol : (iterData qpParamsB [[1]] [0] [[1, 5]] [-1]
      (⟨[0], [0], 1, 1 / 2⟩ : IPState ℚ)).viol = false := by
    rw [iterData_viol_spec]
    norm_num [dot]
  have haF : ((([[1, 5]] : Mat ℚ).zip [-1]).foldl (accumStep qpParamsB.uMod [0])
      ⟨[], false, 1, zeroVec ([0] : Vec ℚ).length, [[1]]⟩) =
      (⟨[1], false, 1, [-1], [[2]]⟩ : Accum ℚ) := by
    norm_num [accumStep, zeroVec, dot, vsub, vadd, smul, smulM, outer, matAdd, qpParamsB]
  have hx1 : (iterData qpParamsB [[1]] [0] [[1, 5]] [-1]
      (⟨[0], [0], 1, 1 / 2⟩ : IPState ℚ)).x1 = [0] := by
    rw [iterData_x1_eq, hviol]
    simp
  have hgv : (iterData qpParamsB [[1]] [0] [[1, 5]] [-1]
      (⟨[0], [0], 1, 1 / 2⟩ : IPState ℚ)).g = [-1] := by
    rw [iterData_g_eq]
    rw [show (⟨[0], [0], 1, 1 / 2⟩ : IPState ℚ).x = [0] from rfl,
      show (⟨[0], [0], 1, 1 / 2⟩ : IPState ℚ).u = (1 : ℚ) from rfl]
    rw [haF, hx1]
    norm_num [matVec, dot, vadd, vsub]
  have hdx : (iterData qpParamsB [[1]] [0] [[1, 5]] [-1]
      (⟨[0], [0], 1, 1 / 2⟩ : IPState ℚ)).dx = [1 / 2] := by
    rw [iterData_dx_eq]
    rw [show (⟨[0], [0], 1, 1 / 2⟩ : IPState ℚ).x = [0] from rfl,
      show (⟨[0], [0], 1, 1 / 2⟩ : IPState ℚ).u = (1 : ℚ) from rfl]
    rw [haF, hgv]
    norm_num [luSolve, vneg, detL, setCol, List.range_succ, List.range_zero]
  have halpha : (iterData qpParamsB [[1]] [0] [[1, 5]] [-1]
      (⟨[0], [0], 1, 1 / 2⟩ : IPState ℚ)).alpha = 1 := by
    rw [iterData_alpha_eq]
    rw [iterData_d_spec, hdx]
    norm_num [dot, List.foldl, qpParamsB]
    rw [shrinkStep_lsFuel_exit _ _ _ _ (by norm_num)]
  have hnb : ¬ ipBreak qpParamsB [[1]] [0] [[1, 5]] [-1]
      (⟨[0], [0], 1, 1 / 2⟩ : IPState ℚ) := by
    unfold ipBreak
    rw [halpha, hdx]
    norm_num [dot, qpParamsB]
  have hsol : QPSolver.solve qpParamsB [[1]] [0] [[1, 5]] [-1] [0] = [1 / 2] := by
    have hfin : QPSolver.solve qpParamsB [[1]] [0] [[1, 5]] [-1] [0] =
        ipLoop qpParamsB [[1]] [0] [[1, 5]] [-1] qpParamsB.steps
          ⟨[0], [0], qpParamsB.u0, qpParamsB.beta0⟩ := by
      unfold QPSolver.solve
      rw [hg0]
      simp
    rw [hfin]
    rw [show (⟨[0], [0], qpParamsB.u0, qpParamsB.beta0⟩ : IPState ℚ) =
      (⟨[0], [0], 1, 1 / 2⟩ : IPState ℚ) from rfl]
    rw [show qpParamsB.steps = 0 + 1 from rfl]
    rw [ipLoop_succ_of_not_break _ _ _ _ _ _ _ hnb]
    simp only [ipLoop]
    rw [iterNext_x_eq, hx1, halpha, hdx]
    norm_num [vadd, smul]
  refine ⟨hg0, by decide, ?_⟩
  rw [hsol]
  norm_num

/-- Claim C5, amended: the dimension checks that the two solve overloads
do perform, H square of the size of x0, f of that size, and for the
constrained overload as many rows of B as entries of c, each abort the
call and return x0 unchanged; the column count of B is not validated. -/
theorem C5_checked_mismatches_return_x0 {α : Type} [LinearOrderedField α]
    (p : QPParams α) (H : Mat α) (f : Vec α) (B : Mat α) (c x0 : Vec α) :
    ((nrows H ≠ x0.length ∨ ncols H ≠ x0.length ∨ f.length ≠ x0.length) →
        QPSolver.solveUnconstrained H f x0 = x0) ∧
      ((nrows H ≠ x0.length ∨ ncols H ≠ x0.length ∨ f.length ≠ x0.length ∨
          nrows B ≠ c.length) → QPSolver.solve p H f B c x0 = x0) := by
  constructor
  · intro h
    have hm : QPSolver.dimMismatch H f x0 = true := by
      unfold QPSolver.dimMismatch
      rcases h with h | h | h <;> simp [h]
    unfold QPSolver.solveUnconstrained
    rw [if_pos hm]
  · intro h
    have hm : QPSolver.dimMismatchIneq H f B c x0 = true := by
      unfold QPSolver.dimMismatchIneq QPSolver.dimMismatch
      rcases h with h | h | h | h <;> simp [h]
    unfold QPSolver.solve
    rw [if_pos hm]

/-- Concrete instance of the amended claim C5: a two-row H against a
one-entry x0 is rejected by both overloads, which return x0. -/
theorem C5_checked_mismatches_witness :
    (nrows ([[1], [1]] : Mat ℚ) ≠ ([0] : Vec ℚ).length) ∧
      QPSolver.solveUnconstrained ([[1], [1]] : Mat ℚ) [0] [0] = [0] ∧
      QPSolver.solve qpParamsA ([[1], [1]] : Mat ℚ) [0] [] [0] [0] = [0] :=
  ⟨by decide,
    (C5_checked_mismatches_return_x0 qpParamsA [[1], [1]] [0] [] [0] [0]).1
      (Or.inl (by decide)),
    (C5_checked_mismatches_return_x0 qpParamsA [[1], [1]] [0] [] [0] [0]).2
      (Or.inl (by decide))⟩

/-- Claim C6: on every well-shaped constrained solve, the interior-point
loop runs some number k of full iterations bounded by the fixed cap; it
stops early exactly when the squared step test first fires, returning
that iteration's accepted base point, and otherwise returns the iterate
after the capped last update; the return type carries no failure
signal. -/
theorem C6_bounded_iterations {α : Type} [LinearOrderedField α] (p : QPParams α)
    (H : Mat α) (f : Vec α) (B : Mat α) (c x0 : Vec α)
    (hg : QPSolver.dimMismatchIneq H f B c x0 = false) :
    ∃ k, k ≤ p.steps ∧
      (∀ j, j < k →
        ¬ ipBreak p H f B c ((iterNext p H f B c)^[j] ⟨x0, x0, p.u0, p.beta0⟩)) ∧
      ((k < p.steps ∧
          ipBreak p H f B c ((iterNext p H f B c)^[k] ⟨x0, x0, p.u0, p.beta0⟩) ∧
          QPSolver.solve p H f B c x0 =
            (iterData p H f B c
              ((iterNext p H f B c)^[k] ⟨x0, x0, p.u0, p.beta0⟩)).x1) ∨
        (k = p.steps ∧ QPSolver.solve p H f B c x0 =
            ((iterNext p H f B c)^[p.steps] ⟨x0, x0, p.u0, p.beta0⟩).x)) := by
  unfold QPSolver.solve
  rw [if_neg (by simp [hg])]
  exact ipLoop_runs p H f B c p.steps ⟨x0, x0, p.u0, p.beta0⟩

/-- Concrete instance of claim C6 at a one-dimensional solve. -/
theorem C6_bounded_iterations_witness :
    QPSolver.dimMismatchIneq ([[1]] : Mat ℚ) [0] [[1]] [0] [1] = false ∧
      (∃ k, k ≤ qpParamsA.steps ∧
        (∀ j, j < k → ¬ ipBreak qpParamsA [[1]] [0] [[1]] [0]
          ((iterNext qpParamsA [[1]] [0] [[1]] [0])^[j]
            ⟨[1], [1], qpParamsA.u0, qpParamsA.beta0⟩)) ∧
        ((k < qpParamsA.steps ∧
            ipBreak qpParamsA [[1]] [0] [[1]] [0]
              ((iterNext qpParamsA [[1]] [0] [[1]] [0])^[k]
                ⟨[1], [1], qpParamsA.u0, qpParamsA.beta0⟩) ∧
            QPSolver.solve qpParamsA [[1]] [0] [[1]] [0] [1] =
              (iterData qpParamsA [[1]] [0] [[1]] [0]
                ((iterNext qpParamsA [[1]] [0] [[1]] [0])^[k]
                  ⟨[1], [1], qpParamsA.u0, qpParamsA.beta0⟩)).x1) ∨
          (k = qpParamsA.steps ∧ QPSolver.solve qpParamsA [[1]] [0] [[1]] [0] [1] =
              ((iterNext qpParamsA [[1]] [0] [[1]] [0])^[qpParamsA.steps]
                ⟨[1], [1], qpParamsA.u0, qpParamsA.beta0⟩).x))) :=
  ⟨by norm_num [QPSolver.dimMismatchIneq, QPSolver.dimMismatch, nrows, ncols],
    C6_bounded_iterations qpParamsA [[1]] [0] [[1]] [0] [1]
      (by norm_num [QPSolver.dimMismatchIneq, QPSolver.dimMismatch, nrows, ncols])⟩

/-- Claim C7, counterexample: in an iteration in which two constraint
slacks are negative, the barrier weight is multiplied by the bump factor
once per violated constraint, here landing at one hundred times its
value rather than the single fixed factor of ten the claim describes. -/
theorem C7_barrier_bump_counterexample :
    (iterData qpParamsA [[1]] [0] [[1], [-1]] [1, 1] ⟨[0], [0], 1, 1 / 2⟩).viol = true ∧
      (iterData qpParamsA [[1]] [0] [[1], [-1]] [1, 1] ⟨[0], [0], 1, 1 / 2⟩).u1 = 100 ∧
      (iterData qpParamsA [[1]] [0] [[1], [-1]] [1, 1] ⟨[0], [0], 1, 1 / 2⟩).u1 ≠
        qpParamsA.uMod * 1 := by
  have hu : (iterData qpParamsA [[1]] [0] [[1], [-1]] [1, 1]
      (⟨[0], [0], 1, 1 / 2⟩ : IPState ℚ)).u1 = 100 := by
    rw [iterData_u1_spec]
    norm_num [dot, List.countP_cons, qpParamsA]
  refine ⟨?_, hu, ?_⟩
  · rw [iterData_viol_spec]
    norm_num [dot]
  · rw [hu]
    norm_num [qpParamsA]

/-- Claim C7, amended: in one iteration of the interior-point loop, each
negative slack is floored at one hundredth for the accumulation, the
violation flag is the disjunction of the slack signs, the barrier weight
is multiplied by the bump factor once per violated constraint, a flagged
iteration reverts the base point to the previous iterate and moves the
decay rate toward one, an unflagged iteration leaves base point, decay
rate and barrier weight untouched by this mechanism, and the state
update steps from the base point and decays the barrier weight. -/
theorem C7_violation_mechanism {α : Type} [LinearOrderedField α] (p : QPParams α)
    (H : Mat α) (f : Vec α) (B : Mat α) (c : Vec α) (s : IPState α) :
    (iterData p H f B c s).d = (B.zip c).map
        (fun pr => if dot pr.1 s.x - pr.2 < 0 then (1 : α) / 100
          else dot pr.1 s.x - pr.2) ∧
      (iterData p H f B c s).viol =
        (B.zip c).any (fun pr => decide (dot pr.1 s.x - pr.2 < 0)) ∧
      (iterData p H f B c s).u1 =
        s.u * p.uMod ^ (B.zip c).countP (fun pr => decide (dot pr.1 s.x - pr.2 < 0)) ∧
      ((iterData p H f B c s).viol = true →
        (iterData p H f B c s).x1 = s.xPrev ∧
          (iterData p H f B c s).beta1 = s.beta + p.betaMod * (1 - s.beta)) ∧
      ((iterData p H f B c s).viol = false →
        (iterData p H f B c s).x1 = s.x ∧ (iterData p H f B c s).beta1 = s.beta ∧
          (iterData p H f B c s).u1 = s.u) ∧
      (iterNext p H f B c s).x = vadd (iterData p H f B c s).x1
        (smul (iterData p H f B c s).alpha (iterData p H f B c s).dx) ∧
      (iterNext p H f B c s).xPrev = (iterData p H f B c s).x1 ∧
      (iterNext p H f B c s).u =
        (iterData p H f B c s).u1 * (iterData p H f B c s).beta1 := by
  refine ⟨iterData_d_spec p H f B c s, iterData_viol_spec p H f B c s,
    iterData_u1_spec p H f B c s, ?_, ?_, rfl, rfl, rfl⟩
  · intro hv
    constructor
    · rw [iterData_x1_eq, hv]
      simp
    · rw [iterData_beta1_eq, hv]
      simp
  · intro hv
    refine ⟨?_, ?_, ?_⟩
    · rw [iterData_x1_eq, hv]
      simp
    · rw [iterData_beta1_eq, hv]
      simp
    · rw [iterData_u1_spec]
      have hany : (B.zip c).any (fun pr => decide (dot pr.1 s.x - pr.2 < 0)) = false := by
        rw [← iterData_viol_spec p H f B c s]
        exact hv
      have hcnt : (B.zip c).countP (fun pr => decide (dot pr.1 s.x - pr.2 < 0)) = 0 :=
        List.countP_eq_zero.mpr (List.any_eq_false.mp hany)
      rw [hcnt, pow_zero, mul_one]

/-- Concrete instance of the amended claim C7 at a violating iteration. -/
theorem C7_violation_mechanism_witness :
    (iterData qpParamsA [[1]] [0] [[1], [-1]] [1, 1] ⟨[0], [0], 1, 1 / 2⟩).viol = true ∧
      (iterData qpParamsA [[1]] [0] [[1], [-1]] [1, 1] ⟨[0], [0], 1, 1 / 2⟩).x1 = [0] ∧
      (iterData qpParamsA [[1]] [0] [[1], [-1]] [1, 1] ⟨[0], [0], 1, 1 / 2⟩).beta1 =
        3 / 4 :=
  ⟨by rw [iterData_viol_spec]; norm_num [dot],
    ((C7_violation_mechanism qpParamsA [[1]] [0] [[1], [-1]] [1, 1]
        ⟨[0], [0], 1, 1 / 2⟩).2.2.2.1 (by rw [iterData_viol_spec]; norm_num [dot])).1,
    (((C7_violation_mechanism qpParamsA [[1]] [0] [[1], [-1]] [1, 1]
        ⟨[0], [0], 1, 1 / 2⟩).2.2.2.1
          (by rw [iterData_viol_spec]; norm_num [dot])).2).trans (by norm_num [qpParamsA])⟩

/-- Claim C8: singularity_avoidance writes a zero into the first entry
of the gradient whenever the scalar weight is positive, and returns the
zero vector of the joint count for a nonpositive scalar weight; the
operation reads the state and modifies nothing. -/
theorem C8_singularity_avoidance {α : Type} [LinearOrderedField α] (rsqrt : α → α)
    (st : CtrlState α) (scalar : α) (hn : 0 < st.n) :
    (0 < scalar →
        (SerialKinematicControl.singularity_avoidance rsqrt st scalar).getD 0 0 = 0 ∧
          (SerialKinematicControl.singularity_avoidance rsqrt st scalar).length = st.n) ∧
      (scalar ≤ 0 →
        SerialKinematicControl.singularity_avoidance rsqrt st scalar = zeroVec st.n) := by
  unfold SerialKinematicControl.singularity_avoidance
  constructor
  · intro hpos
    rw [if_neg (not_le.mpr hpos)]
    dsimp only
    constructor
    · rw [List.getD_eq_getElem _ _ (by simpa using hn), List.getElem_map,
        List.getElem_range]
      simp
    · simp
  · intro hng
    rw [if_pos hng]

/-- Concrete instance of claim C8 at a one-joint state. -/
theorem C8_singularity_avoidance_witness :
    0 < ctrlStateQ.n ∧
      ((SerialKinematicControl.singularity_avoidance id ctrlStateQ (1 / 2)).getD 0 0 = 0 ∧
        (SerialKinematicControl.singularity_avoidance id ctrlStateQ (1 / 2)).length =
          ctrlStateQ.n) ∧
      SerialKinematicControl.singularity_avoidance id ctrlStateQ (-1) =
        zeroVec ctrlStateQ.n :=
  ⟨by decide,
    (C8_singularity_avoidance id ctrlStateQ (1 / 2) (by decide)).1 (by norm_num),
    (C8_singularity_avoidance id ctrlStateQ (-1) (by decide)).2 (by norm_num)⟩

/-- Claim C9: for a joint strictly inside its position limits, the
penalty is exactly one when the penalty gradient times the joint
velocity is not positive, and otherwise is the Chan and Dubey ratio,
which is at least one. -/
theorem C9_joint_penalty {α : Type} [LinearOrderedField α] (st : CtrlState α) (i : ℕ)
    (hl : (st.pLim.getD i (0, 0)).1 < st.q.getD i 0)
    (hu : st.q.getD i 0 < (st.pLim.getD i (0, 0)).2) :
    (¬ 0 < SerialKinematicControl.penaltyGrad st i * st.qdot.getD i 0 →
        SerialKinematicControl.get_joint_penalty st i = 1) ∧
      (0 < SerialKinematicControl.penaltyGrad st i * st.qdot.getD i 0 →
        SerialKinematicControl.get_joint_penalty st i =
            ((st.pLim.getD i (0, 0)).2 - (st.pLim.getD i (0, 0)).1) *
                ((st.pLim.getD i (0, 0)).2 - (st.pLim.getD i (0, 0)).1) /
              (4 * ((st.pLim.getD i (0, 0)).2 - st.q.getD i 0) *
                (st.q.getD i 0 - (st.pLim.getD i (0, 0)).1)) ∧
          1 ≤ SerialKinematicControl.get_joint_penalty st i) := by
  unfold SerialKinematicControl.get_joint_penalty
  dsimp only
  constructor
  · intro hng
    rw [if_neg hng]
  · intro hpos
    rw [if_pos hpos]
    refine ⟨rfl, ?_⟩
    have hdu : 0 < (st.pLim.getD i (0, 0)).2 - st.q.getD i 0 := by linarith
    have hdl : 0 < st.q.getD i 0 - (st.pLim.getD i (0, 0)).1 := by linarith
    rw [le_div_iff₀ (by positivity)]
    nlinarith [sq_nonneg (((st.pLim.getD i (0, 0)).2 - st.q.getD i 0) -
      (st.q.getD i 0 - (st.pLim.getD i (0, 0)).1))]

/-- Concrete instance of claim C9 in both branches at a one-joint
state strictly inside its limits. -/
theorem C9_joint_penalty_witness :
    ((-1 : ℚ), 1).1 < (1 / 2 : ℚ) ∧
      SerialKinematicControl.get_joint_penalty
        ({ ctrlStateQ with q := [1 / 2], qdot := [1] } : CtrlState ℚ) 0 = 4 / 3 ∧
      1 ≤ SerialKinematicControl.get_joint_penalty
        ({ ctrlStateQ with q := [1 / 2], qdot := [1] } : CtrlState ℚ) 0 ∧
      SerialKinematicControl.get_joint_penalty
        ({ ctrlStateQ with q := [1 / 2], qdot := [-1] } : CtrlState ℚ) 0 = 1 :=
  ⟨by norm_num,
    (((C9_joint_penalty ({ ctrlStateQ with q := [1 / 2], qdot := [1] } : CtrlState ℚ) 0
        (by norm_num [ctrlStateQ]) (by norm_num [ctrlStateQ])).2
        (by norm_num [SerialKinematicControl.penaltyGrad, ctrlStateQ])).1).trans
      (by norm_num [ctrlStateQ]),
    ((C9_joint_penalty ({ ctrlStateQ with q := [1 / 2], qdot := [1] } : CtrlState ℚ) 0
        (by norm_num [ctrlStateQ]) (by norm_num [ctrlStateQ])).2
        (by norm_num [SerialKinematicControl.penaltyGrad, ctrlStateQ])).2,
    (C9_joint_penalty ({ ctrlStateQ with q := [1 / 2], qdot := [-1] } : CtrlState ℚ) 0
        (by norm_num [ctrlStateQ]) (by norm_num [ctrlStateQ])).1
      (by norm_num [SerialKinematicControl.penaltyGrad, ctrlStateQ])⟩

/-- Claim C10: for correctly sized references, the three-argument
track_joint_trajectory ignores the acceleration feedforward entirely:
two calls differing only in that argument return the same command. -/
theorem C10_acc_feedforward_ignored {α : Type} [LinearOrderedField α]
    (st : CtrlState α) (pos vel acc acc2 : Vec α) (hpos : pos.length = st.n)
    (hvel : vel.length = st.n) (hacc : acc.length = st.n) (hacc2 : acc2.length = st.n) :
    SerialKinematicControl.track_joint_trajectory_acc st pos vel acc =
      SerialKinematicControl.track_joint_trajectory_acc st pos vel acc2 := by
  unfold SerialKinematicControl.track_joint_trajectory_acc
  rw [if_neg (by simp [hpos, hvel, hacc]), if_neg (by simp [hpos, hvel, hacc2])]

/-- Concrete instance of claim C10 at a one-joint state. -/
theorem C10_acc_feedforward_ignored_witness :
    ([1] : Vec ℚ).length = ctrlStateQ.n ∧
      SerialKinematicControl.track_joint_trajectory_acc ctrlStateQ [1] [2] [3] =
        SerialKinematicControl.track_joint_trajectory_acc ctrlStateQ [1] [2] [4] :=
  ⟨by decide,
    C10_acc_feedforward_ignored ctrlStateQ [1] [2] [3] [4] (by decide) (by decide)
      (by decide) (by decide)⟩

end SRL
